import Mathlib

/-!
Verification model of the onetl `FileDownloader` core
(`src/onetl/core/file_downloader/file_downloader.py`).

The Python code is shallowly embedded: POSIX-style paths become `FPath`
(an absolute flag plus a component list), the local filesystem and the
remote listing become association lists threaded through an explicit
run state, and every fallible connection call consults a per-call-site
failure-injection set so that an exception can be simulated at any
individual call, the way a real remote connection can fail at any
moment.  Each observable side effect of a run (writes, moves, unlinks,
watermark saves, result-bucket insertions, directory wipes) is also
recorded in an event trace so that ordering claims can be stated.
-/

namespace Onetl

/-- A POSIX-style path: absolute flag plus component list.  Mirrors the
`RemotePath` / `LocalPath` values used by the downloader (both are thin
`PurePosixPath`-like wrappers; the claims never depend on the local/remote
type distinction, only on path algebra). -/
structure FPath where
  absolute : Bool
  comps : List String
deriving DecidableEq, Repr

/-- Python `p / q`: if `q` is absolute the result is `q`, otherwise the
components are concatenated. -/
def FPath.join (p q : FPath) : FPath :=
  if q.absolute then q else ⟨p.absolute, p.comps ++ q.comps⟩

/-- Python `Path.name`: the final component (empty for the root). -/
def FPath.name (p : FPath) : String :=
  (p.comps.getLast?).getD ""

/-- Python `base in p.parents`: `base` is a strict ancestor of `p`
(same absoluteness, components a proper prefix). -/
def FPath.inParents (base p : FPath) : Bool :=
  base.absolute == p.absolute && base.comps ≠ p.comps && base.comps.isPrefixOf p.comps

/-- Python `p.relative_to(base)` under the assumption that `base` is an
ancestor: drop the ancestor components. -/
def FPath.relative_to (p base : FPath) : FPath :=
  ⟨false, p.comps.drop base.comps.length⟩

/-- Python `p.parent`. -/
def FPath.parent (p : FPath) : FPath :=
  ⟨p.absolute, p.comps.dropLast⟩

/-- `base` is `p` itself or a strict ancestor of `p` (the set of paths
removed by `shutil.rmtree base`). -/
def FPath.underOrEq (base p : FPath) : Bool :=
  base == p || FPath.inParents base p

/-- Content of a local file: either a fully written copy of some remote
content, or the half-written garbage left behind by an interrupted
transfer. -/
inductive FileData where
  | full (content : Nat)
  | halfWritten
deriving DecidableEq, Repr

/-- The Python exception kinds the downloader can raise or catch. -/
inductive PyErr where
  | valueError
  | fileExists (p : FPath)
  | notADirectory
  | directoryNotFound
  | runtimeError
  | ioError (site : Nat)
  | unboundLocal
deriving DecidableEq, Repr

/-- `FileWriteMode` from `onetl.impl`, as used by `FileDownloader.Options.mode`. -/
inductive FileWriteMode where
  | error
  | ignore
  | overwrite
  | delete_all
deriving DecidableEq, Repr

deriving instance DecidableEq for Except

/-- Association-list lookup for the modelled filesystems. -/
def fsLookup (fs : List (FPath × α)) (p : FPath) : Option α :=
  (fs.find? (fun e => e.1 = p)).map Prod.snd

/-- Write (create or replace) an entry. -/
def fsSet (fs : List (FPath × α)) (p : FPath) (d : α) : List (FPath × α) :=
  fs.filter (fun e => e.1 ≠ p) ++ [(p, d)]

/-- Remove an entry. -/
def fsRemove (fs : List (FPath × α)) (p : FPath) : List (FPath × α) :=
  fs.filter (fun e => e.1 ≠ p)

/-- Remove every entry at or under `base` (`shutil.rmtree base`). -/
def fsRemoveTree (fs : List (FPath × α)) (base : FPath) : List (FPath × α) :=
  fs.filter (fun e => ¬ FPath.underOrEq base e.1)

/-- `OrderedSet.add` / `FileSet.append`: append unless already present. -/
def addUnique [DecidableEq α] (l : List α) (x : α) : List α :=
  if x ∈ l then l else l ++ [x]

/-- One entry of `DOWNLOAD_ITEMS_TYPE`: the (source, target, temp) triple
computed by `_validate_files`. -/
structure DItem where
  src : FPath
  dst : FPath
  tmp : Option FPath
deriving DecidableEq, Repr

/-- Every observable side effect of a run, in execution order.  Bucket
insertions record which candidate (`src`) was being processed when the
corresponding `result.<bucket>.add` call ran. -/
inductive Event where
  | rmtreeLocal
  | rmtreeTemp
  | downloaded (src tgt : FPath)
  | wroteHalf (tgt : FPath)
  | unlinked (p : FPath)
  | moved (src tgt : FPath)
  | hwmSaved (src : FPath)
  | removedSource (src : FPath)
  | addSuccessful (src tgt : FPath)
  | addFailed (src : FPath)
  | addSkipped (src : FPath)
  | addMissing (src : FPath)
deriving DecidableEq, Repr

/-- Modelled from the spec: the `FileLimit` class (onetl/core/file_limit,
not present under src/) carries a default file count limit of 100 — the
source docstring states "Default file count limit is 100"
(file_downloader.py line 86) and the spec repeats it. -/
def fileLimitDefaultCount : Nat := 100

/-- The configuration of a `FileDownloader` instance together with its
`Options`.  Field defaults mirror the pydantic field defaults of the
source class; in particular `limit` defaults to a `FileLimit()` whose
count is `fileLimitDefaultCount`. -/
structure Config where
  local_path : FPath
  source_path : Option FPath := none
  temp_path : Option FPath := none
  filterPred : Option (FPath → Bool) := none
  limit : Option Nat := some fileLimitDefaultCount
  hwm_type : Bool := false
  mode : FileWriteMode := .error
  delete_source : Bool := false

/-- The strategy visible through `StrategyManager.get_current()`:
whether it is an `HWMStrategy`, whether it is a `BatchHWMStrategy`,
and its `offset` attribute (`0` models a falsy/absent offset, matching
the truthiness test `getattr(strategy, "offset", None)`). -/
structure Strategy where
  isHWM : Bool
  isBatch : Bool
  offset : Nat := 0
deriving DecidableEq, Repr

/-- Failure injection for the external connection and HWM store: each
call site consults its own set, modelling that the connection may raise
at any individual call (e.g. succeed while `_validate_files` stats a
file and fail when `_download_file` stats it again). -/
structure Conn where
  statFailsValidate : List FPath := []
  statFailsDownload : List FPath := []
  downloadFails : List FPath := []
  moveFails : List FPath := []
  saveFails : List FPath := []
  removeFails : List FPath := []
  checkFails : Bool := false
  sourceDirFails : Bool := false
deriving DecidableEq, Repr

/-- The mutable state threaded through a run: the remote listing, the
local filesystem (files and tracked directories), the persisted and
in-memory high-water marks, the four result buckets of
`DownloadResult`, and the event trace. -/
structure RunSt where
  remote : List (FPath × Nat)
  localFS : List (FPath × FileData)
  localDirs : List FPath
  store : Option (List FPath)
  hwm : Option (List FPath)
  successful : List FPath
  failed : List (FPath × PyErr)
  skipped : List FPath
  missing : List FPath
  events : List Event
deriving DecidableEq, Repr

/-- Initial state of a run, before any side effect. -/
def initSt (remote : List (FPath × Nat)) (localFS : List (FPath × FileData))
    (localDirs : List FPath) (store : Option (List FPath)) : RunSt :=
  ⟨remote, localFS, localDirs, store, none, [], [], [], [], []⟩

/-- `connection.path_exists` against the current remote listing. -/
def pathExists (st : RunSt) (p : FPath) : Bool :=
  (fsLookup st.remote p).isSome

/-- Modelled from the spec: `FileHWM.update` for a file-list HWM
(provided by the external `etl_entities` collaborator, spec section 4.3):
record the transferred entity in the watermark. -/
def hwmUpdate (h : List FPath) (f : FPath) : List FPath :=
  addUnique h f

/-- `FileDownloader._check_strategy` (file_downloader.py lines 452-463). -/
def check_strategy (cfg : Config) (s : Strategy) : Option PyErr :=
  if cfg.hwm_type then
    if ¬ s.isHWM then some .valueError
    else if s.offset ≠ 0 then some .valueError
    else if s.isBatch then some .valueError
    else none
  else none

/-- `result.missing.add(source_file)` plus its trace event
(file_downloader.py line 626). -/
def recMissing (st : RunSt) (src : FPath) : RunSt :=
  { st with missing := addUnique st.missing src,
            events := st.events ++ [.addMissing src] }

/-- `result.skipped.add(remote_file)` plus its trace event (line 640). -/
def recSkipped (st : RunSt) (src : FPath) : RunSt :=
  { st with skipped := addUnique st.skipped src,
            events := st.events ++ [.addSkipped src] }

/-- `result.failed.add(FailedRemoteFile(..., exception=e))` plus its
trace event (line 678). -/
def recFailed (st : RunSt) (src : FPath) (e : PyErr) : RunSt :=
  { st with failed := addUnique st.failed (src, e),
            events := st.events ++ [.addFailed src] }

/-- `result.successful.add(local_file)` plus its trace event (line 671). -/
def recSuccessful (st : RunSt) (src dst : FPath) : RunSt :=
  { st with successful := addUnique st.successful dst,
            events := st.events ++ [.addSuccessful src dst] }

/-- `connection.download_file(remote_file, tgt, replace=replace)`: copies
the remote content to `tgt`.  An injected failure leaves a half-written
file at `tgt` (the worst case a mid-transfer interruption can produce)
and raises; without `replace` an existing target raises. -/
def downloadFileOp (conn : Conn) (st : RunSt) (src tgt : FPath) (replace : Bool) :
    RunSt × Option PyErr :=
  match fsLookup st.remote src with
  | none => (st, some (.ioError 2))
  | some c =>
    if src ∈ conn.downloadFails then
      ({ st with localFS := fsSet st.localFS tgt .halfWritten,
                 events := st.events ++ [.wroteHalf tgt] }, some (.ioError 3))
    else if (fsLookup st.localFS tgt).isSome ∧ ¬ replace then
      (st, some (.fileExists tgt))
    else
      ({ st with localFS := fsSet st.localFS tgt (.full c),
                 events := st.events ++ [.downloaded src tgt] }, none)

/-- `local_file.unlink()` (line 655). -/
def unlinkOp (st : RunSt) (p : FPath) : RunSt :=
  { st with localFS := fsRemove st.localFS p,
            events := st.events ++ [.unlinked p] }

/-- `shutil.move(tmp_file, local_file)` (line 658): an atomic rename —
the spec assumes temp and destination share a filesystem. -/
def moveOp (conn : Conn) (st : RunSt) (src tmp dst : FPath) : RunSt × Option PyErr :=
  if src ∈ conn.moveFails then (st, some (.ioError 4))
  else
    match fsLookup st.localFS tmp with
    | none => (st, some (.ioError 5))
    | some d =>
      ({ st with localFS := fsSet (fsRemove st.localFS tmp) dst d,
                 events := st.events ++ [.moved tmp dst] }, none)

/-- `local_file.parent.mkdir(parents=True, exist_ok=True)` (line 657). -/
def mkdirParent (st : RunSt) (dst : FPath) : RunSt :=
  { st with localDirs := addUnique st.localDirs dst.parent }

/-- Lines 645-661 of `_download_file`: stage through the temp file when
one was computed (download to temp, remove a pre-existing destination
only after the temp download succeeded, make the parent directory, move
temp to destination), otherwise download directly to the destination. -/
def transferStep (conn : Conn) (st : RunSt) (item : DItem) (replace : Bool) :
    RunSt × Option PyErr :=
  match item.tmp with
  | some tmpFile =>
    match downloadFileOp conn st item.src tmpFile replace with
    | (st1, some e) => (st1, some e)
    | (st1, none) =>
      moveOp conn
        (mkdirParent
          (if replace ∧ (fsLookup st1.localFS item.dst).isSome
           then unlinkOp st1 item.dst else st1) item.dst)
        item.src tmpFile item.dst
  | none => downloadFileOp conn st item.src item.dst replace

/-- Lines 663-665: `file_hwm.update(remote_file)` followed immediately
by `hwm_store.save(file_hwm)`; a save failure raises after the
in-memory watermark was already advanced. -/
def hwmStep (conn : Conn) (st : RunSt) (src : FPath) : RunSt × Option PyErr :=
  match st.hwm with
  | none => (st, none)
  | some h =>
    let h2 := hwmUpdate h src
    let st1 := { st with hwm := some h2 }
    if src ∈ conn.saveFails then (st1, some (.ioError 6))
    else ({ st1 with store := some h2, events := st1.events ++ [.hwmSaved src] }, none)

/-- Lines 668-669: `connection.remove_file(remote_file)` when
`delete_source` is configured. -/
def deleteSourceStep (cfg : Config) (conn : Conn) (st : RunSt) (src : FPath) :
    RunSt × Option PyErr :=
  if cfg.delete_source then
    if src ∈ conn.removeFails then (st, some (.ioError 7))
    else ({ st with remote := fsRemove st.remote src,
                    events := st.events ++ [.removedSource src] }, none)
  else (st, none)

/-- The body of the `try` block of `_download_file` (lines 630-671),
starting after `get_file` succeeded: conflict-mode resolution, transfer,
watermark advance, optional source deletion, success record.  The
`Option PyErr` component is the exception raised by the body, if any. -/
def tryBody (cfg : Config) (conn : Conn) (item : DItem) (st : RunSt) :
    RunSt × Option PyErr :=
  if (fsLookup st.localFS item.dst).isSome ∧ cfg.mode = .error then
    (st, some (.fileExists item.dst))
  else if (fsLookup st.localFS item.dst).isSome ∧ cfg.mode = .ignore then
    (recSkipped st item.src, none)
  else
    match transferStep conn st item (fsLookup st.localFS item.dst).isSome with
    | (st1, some e) => (st1, some e)
    | (st1, none) =>
      match hwmStep conn st1 item.src with
      | (st2, some e) => (st2, some e)
      | (st2, none) =>
        match deleteSourceStep cfg conn st2 item.src with
        | (st3, some e) => (st3, some e)
        | (st3, none) => (recSuccessful st3 item.src item.dst, none)

/-- `FileDownloader._download_file` (lines 615-678).  A `some` error in
the result is an exception that escapes the method and aborts the run:
the only such case is a failure of `get_file` itself, because the
`except` handler then reads the unbound local `remote_file` and raises
`UnboundLocalError`; every exception raised after `remote_file` was
bound is caught and recorded in the `failed` bucket. -/
def downloadOne (cfg : Config) (conn : Conn) (item : DItem) (st : RunSt) :
    RunSt × Option PyErr :=
  if ¬ pathExists st item.src then (recMissing st item.src, none)
  else if item.src ∈ conn.statFailsDownload then (st, some .unboundLocal)
  else
    match tryBody cfg conn item st with
    | (st1, none) => (st1, none)
    | (st1, some e) => (recFailed st1 item.src e, none)

/-- `FileDownloader._download_files` (lines 582-613): process the
candidates in order; an escaping exception aborts the loop. -/
def download_files (cfg : Config) (conn : Conn) :
    List DItem → RunSt → RunSt × Option PyErr
  | [], st => (st, none)
  | item :: rest, st =>
    match downloadOne cfg conn item st with
    | (st1, none) => download_files cfg conn rest st1
    | (st1, some e) => (st1, some e)

/-- The per-file body of `FileDownloader._validate_files`
(lines 534-564): resolve one requested path to its
(source, target, temp) triple or raise `ValueError`. -/
def validate_one (cfg : Config) (ctd : Option FPath) (f : FPath) :
    Except PyErr DItem :=
  match cfg.source_path with
  | none =>
    if ¬ f.absolute then .error .valueError
    else
      let filename : FPath := ⟨false, [f.name]⟩
      .ok ⟨f, cfg.local_path.join filename, ctd.map (fun t => t.join filename)⟩
  | some sp =>
    if sp.inParents f then
      let rel := f.relative_to sp
      .ok ⟨f, cfg.local_path.join rel, ctd.map (fun t => t.join rel)⟩
    else if ¬ f.absolute then
      .ok ⟨sp.join f, cfg.local_path.join f, ctd.map (fun t => t.join f)⟩
    else .error .valueError

/-- The loop of `_validate_files` (lines 534-571), accumulating an
ordered set of triples; after resolving each path it stats the remote
file when it exists (lines 566-567) — an exception there propagates. -/
def validate_go (cfg : Config) (conn : Conn) (st : RunSt) (ctd : Option FPath) :
    List FPath → List DItem → Except PyErr (List DItem)
  | [], acc => .ok acc
  | f :: rest, acc =>
    match validate_one cfg ctd f with
    | .error e => .error e
    | .ok item =>
      if pathExists st item.src ∧ item.src ∈ conn.statFailsValidate then
        .error (.ioError 1)
      else validate_go cfg conn st ctd rest (addUnique acc item)

/-- `FileDownloader._validate_files` (lines 527-571). -/
def validate_files (cfg : Config) (conn : Conn) (st : RunSt) (ctd : Option FPath)
    (files : List FPath) : Except PyErr (List DItem) :=
  validate_go cfg conn st ctd files []

/-- Modelled from the spec: `connection.walk(root, filters, limits)`
(the file-connection base class is not under src/; spec section 4.2):
enumerate the files below `root`, drop the ones any filter rejects —
the optional user filter and the optional watermark filter, which
excludes files already covered by the HWM — and stop once the count
limit is exhausted. -/
def walkFiles (remote : List (FPath × Nat)) (root : FPath)
    (filt : Option (FPath → Bool)) (hwmFilter : Option (List FPath))
    (limit : Option Nat) : List FPath :=
  let files := ((remote.map Prod.fst).foldl addUnique []).filter
    (fun p => root.inParents p)
  let files := match filt with
               | none => files
               | some f => files.filter f
  let files := match hwmFilter with
               | none => files
               | some h => files.filter (fun p => decide (p ∉ h))
  match limit with
  | none => files
  | some n => files.take n

/-- `FileDownloader.view_files` (lines 380-450): check the source
directory, then walk it with the configured filter, the watermark filter
(when `hwm_type` is set, over the stored HWM or an empty one), and the
configured limit. -/
def view_files_model (cfg : Config) (conn : Conn) (st : RunSt) :
    Except PyErr (List FPath) :=
  if conn.sourceDirFails then .error .directoryNotFound
  else
    match cfg.source_path with
    | none => .error .valueError
    | some sp =>
      let hwmFilter := if cfg.hwm_type then some (st.store.getD []) else none
      .ok (walkFiles st.remote sp cfg.filterPred hwmFilter cfg.limit)

/-- `generate_temp_path(temp_path)` (onetl._internal): a fresh run-local
subdirectory of the configured temp path. -/
def generate_temp_path (p : FPath) : FPath :=
  ⟨p.absolute, p.comps ++ ["onetl", "tmp"]⟩

/-- Lines 364-367 of `run`: `shutil.rmtree(local_path)` followed by
`local_path.mkdir()` — the destination contents are wiped and the empty
destination directory recreated. -/
def rmtreeLocalOp (st : RunSt) (lp : FPath) : RunSt :=
  { st with localFS := fsRemoveTree st.localFS lp,
            localDirs := addUnique (st.localDirs.filter (fun d => ¬ lp.underOrEq d)) lp,
            events := st.events ++ [.rmtreeLocal] }

/-- `_remove_temp_dir` (lines 680-686): best-effort removal of the
run-local temp directory. -/
def rmtreeTempOp (st : RunSt) (td : FPath) : RunSt :=
  { st with localFS := fsRemoveTree st.localFS td,
            localDirs := st.localDirs.filter (fun d => ¬ td.underOrEq d),
            events := st.events ++ [.rmtreeTemp] }

/-- Line 370 via `_hwm_processing` and `_get_hwm`: when `hwm_type` is
set, load the file HWM from the current store (or start empty) before
the download loop. -/
def hwmLoad (cfg : Config) (st : RunSt) : RunSt :=
  if cfg.hwm_type then { st with hwm := some (st.store.getD []) } else st

/-- Lines 364-378 of `run`: the `delete_all` wipe, the watermark load,
the download loop, and the best-effort temp-directory cleanup (skipped
when the loop raised — the source has no `finally`). -/
def runLoop (cfg : Config) (conn : Conn) (items : List DItem)
    (ctd : Option FPath) (st1 : RunSt) : RunSt × Option PyErr :=
  match download_files cfg conn items
      (hwmLoad cfg
        (if cfg.mode = .delete_all then rmtreeLocalOp st1 cfg.local_path else st1)) with
  | (st4, some e) => (st4, some e)
  | (st4, none) =>
    match ctd with
    | some td => (rmtreeTempOp st4 td, none)
    | none => (st4, none)

/-- Lines 357-372 of `run`: temp-path generation, validation of the
resolved candidate paths, then the loop stage. -/
def runResolved (cfg : Config) (conn : Conn) (fs : List FPath) (st1 : RunSt) :
    RunSt × Option PyErr :=
  match validate_files cfg conn st1 (cfg.temp_path.map generate_temp_path) fs with
  | .error e => (st1, some e)
  | .ok items => runLoop cfg conn items (cfg.temp_path.map generate_temp_path) st1

/-- Lines 343-355 of `run`: connection check, source-path check,
candidate resolution (explicit list or `view_files`), early return on
an empty candidate set, then the resolved stage. -/
def runChecked (cfg : Config) (conn : Conn) (files : Option (List FPath))
    (st1 : RunSt) : RunSt × Option PyErr :=
  if conn.checkFails then (st1, some .runtimeError)
  else if cfg.source_path.isSome ∧ conn.sourceDirFails then
    (st1, some .directoryNotFound)
  else
    match (match files with
           | some fs => Except.ok fs
           | none => view_files_model cfg conn st1) with
    | .error e => (st1, some e)
    | .ok fs =>
      if fs.isEmpty then (st1, none)
      else runResolved cfg conn fs st1

/-- `FileDownloader.run` (lines 226-378): strategy check, argument
check, local-path check plus `mkdir`, then the checked stage. -/
def runModel (cfg : Config) (conn : Conn) (strat : Strategy)
    (files : Option (List FPath)) (remote : List (FPath × Nat))
    (localFS : List (FPath × FileData)) (localDirs : List FPath)
    (store : Option (List FPath)) : RunSt × Option PyErr :=
  match check_strategy cfg strat with
  | some e => (initSt remote localFS localDirs store, some e)
  | none =>
    if files.isNone ∧ cfg.source_path.isNone then
      (initSt remote localFS localDirs store, some .valueError)
    else if (fsLookup (initSt remote localFS localDirs store).localFS
        cfg.local_path).isSome then
      (initSt remote localFS localDirs store, some .notADirectory)
    else
      runChecked cfg conn files
        { initSt remote localFS localDirs store with
            localDirs := addUnique localDirs cfg.local_path }

/-- Whether an event is one of the four `result.<bucket>.add` calls. -/
def Event.isBucketAdd : Event → Bool
  | .addSuccessful _ _ => true
  | .addFailed _ => true
  | .addSkipped _ => true
  | .addMissing _ => true
  | _ => false

/-- The candidate a bucket-insertion event was recorded for. -/
def Event.addSrc : Event → Option FPath
  | .addSuccessful src _ => some src
  | .addFailed src => some src
  | .addSkipped src => some src
  | .addMissing src => some src
  | _ => none

/-- The bucket-insertion events of a trace. -/
def bucketAdds (l : List Event) : List Event :=
  l.filter Event.isBucketAdd

/-- A bucket-insertion event is backed by an actual record in the
corresponding bucket of the given state. -/
def inBucket (st : RunSt) : Event → Prop
  | .addSuccessful _ dst => dst ∈ st.successful
  | .addFailed src => ∃ e, (src, e) ∈ st.failed
  | .addSkipped src => src ∈ st.skipped
  | .addMissing src => src ∈ st.missing
  | _ => False

/-- The four result buckets of two states coincide. -/
def bucketsEq (st st' : RunSt) : Prop :=
  st'.successful = st.successful ∧ st'.failed = st.failed ∧
  st'.skipped = st.skipped ∧ st'.missing = st.missing

/-- The four result buckets only grew from `st` to `st'`. -/
def bucketsLe (st st' : RunSt) : Prop :=
  st.successful ⊆ st'.successful ∧ st.failed ⊆ st'.failed ∧
  st.skipped ⊆ st'.skipped ∧ st.missing ⊆ st'.missing

/-- A state step that appends only bookkeeping events: no bucket
insertion and no destination wipe, with the buckets untouched. -/
def cleanStep (st st' : RunSt) : Prop :=
  bucketsEq st st' ∧
  ∃ δ, st'.events = st.events ++ δ ∧ bucketAdds δ = [] ∧ Event.rmtreeLocal ∉ δ

/-- Fixture path: the configured destination directory, used to
instantiate the proved theorems at executable inputs. -/
def fixLocal : FPath := ⟨true, ["local"]⟩

/-- Fixture path: the configured remote source directory. -/
def fixRemote : FPath := ⟨true, ["remote"]⟩

/-- Fixture remote file `a`. -/
def fixRA : FPath := ⟨true, ["remote", "a"]⟩

/-- Fixture remote file `b`. -/
def fixRB : FPath := ⟨true, ["remote", "b"]⟩

/-- Fixture remote file `c`. -/
def fixRC : FPath := ⟨true, ["remote", "c"]⟩

/-- Fixture remote file `d`. -/
def fixRD : FPath := ⟨true, ["remote", "d"]⟩

/-- Fixture destination file for `a`. -/
def fixLA : FPath := ⟨true, ["local", "a"]⟩

/-- Fixture destination file for `b`. -/
def fixLB : FPath := ⟨true, ["local", "b"]⟩

/-- Fixture destination file for `c`. -/
def fixLC : FPath := ⟨true, ["local", "c"]⟩

/-- Fixture destination file for `d`. -/
def fixLD : FPath := ⟨true, ["local", "d"]⟩

/-- Fixture downloader configuration with conflict mode `ignore`. -/
def fixCfgC1 : Config := { local_path := fixLocal, mode := .ignore }

/-- Fixture connection that fails the transfer of remote file `b`. -/
def fixConnC1 : Conn := { downloadFails := [fixRB] }

/-- Fixture candidate list covering all four outcome buckets. -/
def fixItemsC1 : List DItem :=
  [⟨fixRA, fixLA, none⟩, ⟨fixRB, fixLB, none⟩,
   ⟨fixRC, fixLC, none⟩, ⟨fixRD, fixLD, none⟩]

/-- Fixture initial state: remote files `a b c` (no `d`), destination
file for `c` already present. -/
def fixStC1 : RunSt :=
  initSt [(fixRA, 1), (fixRB, 2), (fixRC, 3)] [(fixLC, .full 9)] [] none

/-- Fixture downloader configuration with all defaults. -/
def fixCfgPlain : Config := { local_path := fixLocal }

/-- Fixture initial state with nothing on either side. -/
def fixStEmpty : RunSt := initSt [] [] [] none

/-- Fixture remote file that is absent from the remote listing. -/
def fixGone : FPath := ⟨true, ["remote", "gone"]⟩

/-- Fixture destination path for the absent remote file. -/
def fixLGone : FPath := ⟨true, ["local", "gone"]⟩

/-- Fixture candidate triple for the absent remote file. -/
def fixItemGone : DItem := ⟨fixGone, fixLGone, none⟩

/-- Fixture configuration with a source path. -/
def fixCfgSrc : Config := { local_path := fixLocal, source_path := some fixRemote }

/-- Fixture configuration with a source path and watermark tracking. -/
def fixCfgHwm : Config :=
  { local_path := fixLocal, source_path := some fixRemote, hwm_type := true }

/-- Fixture configuration with conflict mode `delete_all`. -/
def fixCfgDel : Config := { local_path := fixLocal, mode := .delete_all }

/-- Fixture snapshot strategy (not an HWM strategy). -/
def fixStratSnap : Strategy := ⟨false, false, 0⟩

/-- Fixture batch-incremental strategy. -/
def fixStratBatch : Strategy := ⟨true, true, 0⟩

/-- Fixture candidate triple for remote file `a`, no temp path. -/
def fixItemA : DItem := ⟨fixRA, fixLA, none⟩

/-- Fixture configuration for the watermark-ordering claim: watermark
tracking plus source deletion. -/
def fixCfg8 : Config := { fixCfgHwm with delete_source := true }

/-- Fixture state with an empty in-memory watermark loaded. -/
def fixSt8 : RunSt := { initSt [(fixRA, 1)] [] [] none with hwm := some [] }

/-- Fixture state for the conflict-mode claim: remote file `a` present,
destination file for `a` already present with other content. -/
def fixStC3 : RunSt := initSt [(fixRA, 1)] [(fixLA, .full 5)] [] none

theorem fsLookup_nil (q : FPath) : fsLookup ([] : List (FPath × α)) q = none := rfl

theorem fsLookup_cons (e : FPath × α) (fs : List (FPath × α)) (q : FPath) :
    fsLookup (e :: fs) q = if e.1 = q then some e.2 else fsLookup fs q := by
  by_cases h : e.1 = q <;> simp [fsLookup, List.find?_cons, h]

theorem fsLookup_filter_ne (fs : List (FPath × α)) (p q : FPath) :
    fsLookup (fs.filter (fun e => e.1 ≠ p)) q =
      if q = p then none else fsLookup fs q := by
  induction fs with
  | nil => simp [fsLookup]
  | cons e fs ih =>
    simp only [decide_not] at ih ⊢
    by_cases hep : e.1 = p
    · by_cases hqp : q = p
      · subst hqp
        simp [List.filter_cons, hep, ih]
      · have hpq2 : ¬ p = q := fun h => hqp h.symm
        simp [List.filter_cons, hep, fsLookup_cons, hqp, hpq2, ih]
    · by_cases heq : e.1 = q
      · have hqp : ¬ q = p := fun h => hep (heq.trans h)
        simp [List.filter_cons, hep, fsLookup_cons, heq, hqp]
      · simp [List.filter_cons, hep, fsLookup_cons, heq, ih]

theorem fsLookup_append (fs gs : List (FPath × α)) (q : FPath) :
    fsLookup (fs ++ gs) q =
      match fsLookup fs q with
      | some d => some d
      | none => fsLookup gs q := by
  induction fs with
  | nil => simp [fsLookup]
  | cons e fs ih =>
    by_cases h : e.1 = q
    · simp [fsLookup_cons, h]
    · simpa [fsLookup_cons, h] using ih

theorem fsLookup_fsSet (fs : List (FPath × α)) (p q : FPath) (d : α) :
    fsLookup (fsSet fs p d) q = if q = p then some d else fsLookup fs q := by
  unfold fsSet
  rw [fsLookup_append, fsLookup_filter_ne]
  by_cases h : q = p
  · simp [h, fsLookup_cons]
  · have h' : ¬ p = q := fun hh => h hh.symm
    simp only [h, if_false]
    cases fsLookup fs q <;> simp [fsLookup_cons, fsLookup, h']

theorem fsLookup_fsRemove (fs : List (FPath × α)) (p q : FPath) :
    fsLookup (fsRemove fs p) q = if q = p then none else fsLookup fs q := by
  unfold fsRemove
  exact fsLookup_filter_ne fs p q

theorem mem_addUnique_self [DecidableEq α] (l : List α) (x : α) :
    x ∈ addUnique l x := by
  unfold addUnique
  split
  · assumption
  · simp

theorem mem_addUnique_of_mem [DecidableEq α] {l : List α} {y : α} (x : α)
    (h : y ∈ l) : y ∈ addUnique l x := by
  unfold addUnique
  split
  · exact h
  · exact List.mem_append_left _ h

theorem subset_addUnique [DecidableEq α] (l : List α) (x : α) :
    l ⊆ addUnique l x :=
  fun _ h => mem_addUnique_of_mem x h

theorem length_addUnique_le [DecidableEq α] (l : List α) (x : α) :
    (addUnique l x).length ≤ l.length + 1 := by
  unfold addUnique
  split
  · omega
  · simp

theorem bucketAdds_append (a b : List Event) :
    bucketAdds (a ++ b) = bucketAdds a ++ bucketAdds b := by
  simp [bucketAdds]

theorem bucketsEq_refl (st : RunSt) : bucketsEq st st := ⟨rfl, rfl, rfl, rfl⟩

theorem cleanStep_refl (st : RunSt) : cleanStep st st :=
  ⟨bucketsEq_refl st, [], by simp, rfl, by simp⟩

theorem cleanStep_trans {st st1 st2 : RunSt} (h1 : cleanStep st st1)
    (h2 : cleanStep st1 st2) : cleanStep st st2 := by
  obtain ⟨⟨b1, b2, b3, b4⟩, δ1, he1, ha1, hr1⟩ := h1
  obtain ⟨⟨c1, c2, c3, c4⟩, δ2, he2, ha2, hr2⟩ := h2
  refine ⟨⟨c1.trans b1, c2.trans b2, c3.trans b3, c4.trans b4⟩,
    δ1 ++ δ2, ?_, ?_, ?_⟩
  · rw [he2, he1, List.append_assoc]
  · rw [bucketAdds_append, ha1, ha2, List.append_nil]
  · simp only [List.mem_append]
    rintro (h | h)
    · exact hr1 h
    · exact hr2 h

theorem cleanStep_of_append {st st' : RunSt} (δ : List Event)
    (hb : bucketsEq st st') (he : st'.events = st.events ++ δ)
    (ha : bucketAdds δ = []) (hr : Event.rmtreeLocal ∉ δ) : cleanStep st st' :=
  ⟨hb, δ, he, ha, hr⟩

theorem downloadFileOp_clean (conn : Conn) (st : RunSt) (src tgt : FPath)
    (replace : Bool) : cleanStep st (downloadFileOp conn st src tgt replace).1 := by
  unfold downloadFileOp
  cases h : fsLookup st.remote src with
  | none => exact cleanStep_refl st
  | some c =>
    by_cases hf : src ∈ conn.downloadFails
    · simp only [hf, if_true]
      exact cleanStep_of_append [.wroteHalf tgt] ⟨rfl, rfl, rfl, rfl⟩ rfl
        (by simp [bucketAdds, Event.isBucketAdd]) (by simp)
    · by_cases he : (fsLookup st.localFS tgt).isSome ∧ ¬ replace
      · simp only [hf, if_false, he, if_true]
        exact cleanStep_refl st
      · simp only [hf, if_false, he, if_true]
        exact cleanStep_of_append [.downloaded src tgt] ⟨rfl, rfl, rfl, rfl⟩ rfl
          (by simp [bucketAdds, Event.isBucketAdd]) (by simp)

theorem unlinkOp_clean (st : RunSt) (p : FPath) : cleanStep st (unlinkOp st p) :=
  cleanStep_of_append [.unlinked p] ⟨rfl, rfl, rfl, rfl⟩ rfl
    (by simp [bucketAdds, Event.isBucketAdd]) (by simp)

theorem moveOp_clean (conn : Conn) (st : RunSt) (src tmp dst : FPath) :
    cleanStep st (moveOp conn st src tmp dst).1 := by
  unfold moveOp
  by_cases hf : src ∈ conn.moveFails
  · simp only [hf, if_true]
    exact cleanStep_refl st
  · simp only [hf, if_false]
    cases h : fsLookup st.localFS tmp with
    | none => exact cleanStep_refl st
    | some d =>
      exact cleanStep_of_append [.moved tmp dst] ⟨rfl, rfl, rfl, rfl⟩ rfl
        (by simp [bucketAdds, Event.isBucketAdd]) (by simp)

theorem mkdirParent_clean (st : RunSt) (d : FPath) :
    cleanStep st (mkdirParent st d) :=
  cleanStep_of_append [] ⟨rfl, rfl, rfl, rfl⟩ (by simp [mkdirParent]) rfl (by simp)

theorem transferStep_clean (conn : Conn) (st : RunSt) (item : DItem)
    (replace : Bool) : cleanStep st (transferStep conn st item replace).1 := by
  unfold transferStep
  split
  next tmpFile htmp =>
    split
    next st1 e heq =>
      have h := downloadFileOp_clean conn st item.src tmpFile replace
      rw [heq] at h
      exact h
    next st1 heq =>
      have h1 : cleanStep st st1 := by
        have h := downloadFileOp_clean conn st item.src tmpFile replace
        rw [heq] at h
        exact h
      have h2 : cleanStep st1 (if replace ∧ (fsLookup st1.localFS item.dst).isSome
          then unlinkOp st1 item.dst else st1) := by
        split
        next => exact unlinkOp_clean st1 item.dst
        next => exact cleanStep_refl st1
      exact cleanStep_trans h1 (cleanStep_trans h2 (cleanStep_trans
        (mkdirParent_clean _ item.dst) (moveOp_clean conn _ item.src tmpFile item.dst)))
  next => exact downloadFileOp_clean conn st item.src item.dst replace

theorem hwmStep_clean (conn : Conn) (st : RunSt) (src : FPath) :
    cleanStep st (hwmStep conn st src).1 := by
  unfold hwmStep
  cases st.hwm with
  | none => exact cleanStep_refl st
  | some h =>
    by_cases hf : src ∈ conn.saveFails
    · simp only [hf, if_true]
      exact cleanStep_of_append [] ⟨rfl, rfl, rfl, rfl⟩ (by simp) rfl (by simp)
    · simp only [hf, if_false]
      exact cleanStep_of_append [.hwmSaved src] ⟨rfl, rfl, rfl, rfl⟩ rfl
        (by simp [bucketAdds, Event.isBucketAdd]) (by simp)

theorem deleteSourceStep_clean (cfg : Config) (conn : Conn) (st : RunSt)
    (src : FPath) : cleanStep st (deleteSourceStep cfg conn st src).1 := by
  unfold deleteSourceStep
  by_cases hd : cfg.delete_source
  · by_cases hf : src ∈ conn.removeFails
    · simp only [hd, hf, if_true]
      exact cleanStep_refl st
    · simp only [hd, hf, if_true, if_false]
      exact cleanStep_of_append [.removedSource src] ⟨rfl, rfl, rfl, rfl⟩ rfl
        (by simp [bucketAdds, Event.isBucketAdd]) (by simp)
  · simp only [hd, if_false]
    exact cleanStep_refl st

theorem bucketsLe_refl (st : RunSt) : bucketsLe st st :=
  ⟨List.Subset.refl _, List.Subset.refl _, List.Subset.refl _, List.Subset.refl _⟩

theorem bucketsLe_trans {st st1 st2 : RunSt} (h1 : bucketsLe st st1)
    (h2 : bucketsLe st1 st2) : bucketsLe st st2 :=
  ⟨h1.1.trans h2.1, h1.2.1.trans h2.2.1, h1.2.2.1.trans h2.2.2.1,
   h1.2.2.2.trans h2.2.2.2⟩

theorem bucketsLe_of_cleanStep {st stm : RunSt} (h : cleanStep st stm) :
    bucketsLe st stm := by
  obtain ⟨⟨a, b, c, d⟩, _⟩ := h
  exact ⟨fun _ hx => a.symm ▸ hx, fun _ hx => b.symm ▸ hx,
         fun _ hx => c.symm ▸ hx, fun _ hx => d.symm ▸ hx⟩

theorem inBucket_mono {st st' : RunSt} (h : bucketsLe st st') {ev : Event}
    (hb : inBucket st ev) : inBucket st' ev := by
  cases ev with
  | addSuccessful src dst => exact h.1 hb
  | addFailed src =>
    obtain ⟨e, he⟩ := hb
    exact ⟨e, h.2.1 he⟩
  | addSkipped src => exact h.2.2.1 hb
  | addMissing src => exact h.2.2.2 hb
  | rmtreeLocal => exact hb.elim
  | rmtreeTemp => exact hb.elim
  | downloaded a b => exact hb.elim
  | wroteHalf a => exact hb.elim
  | unlinked a => exact hb.elim
  | moved a b => exact hb.elim
  | hwmSaved a => exact hb.elim
  | removedSource a => exact hb.elim

theorem tryBody_cases (cfg : Config) (conn : Conn) (item : DItem) (st st' : RunSt)
    (oe : Option PyErr) (h : tryBody cfg conn item st = (st', oe)) :
    (oe = none ∧ ∃ stm, cleanStep st stm ∧
       (st' = recSkipped stm item.src ∨ st' = recSuccessful stm item.src item.dst)) ∨
    (∃ e, oe = some e ∧ cleanStep st st') := by
  unfold tryBody at h
  split at h
  · injection h with h1 h2
    exact .inr ⟨.fileExists item.dst, h2.symm, h1 ▸ cleanStep_refl st⟩
  · split at h
    · injection h with h1 h2
      exact .inl ⟨h2.symm, st, cleanStep_refl st, .inl h1.symm⟩
    · split at h
      next st1 e ht =>
        injection h with h1 h2
        have c1 : cleanStep st st1 := by
          have hc := transferStep_clean conn st item (fsLookup st.localFS item.dst).isSome
          rw [ht] at hc
          exact hc
        exact .inr ⟨e, h2.symm, h1 ▸ c1⟩
      next st1 ht =>
        have c1 : cleanStep st st1 := by
          have hc := transferStep_clean conn st item (fsLookup st.localFS item.dst).isSome
          rw [ht] at hc
          exact hc
        split at h
        next st2 e hh =>
          injection h with h1 h2
          have c2 : cleanStep st1 st2 := by
            have hc := hwmStep_clean conn st1 item.src
            rw [hh] at hc
            exact hc
          exact .inr ⟨e, h2.symm, h1 ▸ cleanStep_trans c1 c2⟩
        next st2 hh =>
          have c2 : cleanStep st1 st2 := by
            have hc := hwmStep_clean conn st1 item.src
            rw [hh] at hc
            exact hc
          split at h
          next st3 e hdel =>
            injection h with h1 h2
            have c3 : cleanStep st2 st3 := by
              have hc := deleteSourceStep_clean cfg conn st2 item.src
              rw [hdel] at hc
              exact hc
            exact .inr ⟨e, h2.symm, h1 ▸ cleanStep_trans c1 (cleanStep_trans c2 c3)⟩
          next st3 hdel =>
            injection h with h1 h2
            have c3 : cleanStep st2 st3 := by
              have hc := deleteSourceStep_clean cfg conn st2 item.src
              rw [hdel] at hc
              exact hc
            exact .inl ⟨h2.symm, st3,
              cleanStep_trans c1 (cleanStep_trans c2 c3), .inr h1.symm⟩

theorem downloadOne_abort (cfg : Config) (conn : Conn) (item : DItem)
    (st st' : RunSt) (e : PyErr)
    (h : downloadOne cfg conn item st = (st', some e)) :
    st' = st ∧ e = .unboundLocal ∧ item.src ∈ conn.statFailsDownload := by
  unfold downloadOne at h
  split at h
  · injection h with h1 h2
    exact Option.noConfusion h2
  next hpe =>
    split at h
    next hsf =>
      injection h with h1 h2
      injection h2 with h3
      exact ⟨h1.symm, h3.symm, hsf⟩
    next hsf =>
      split at h
      next st1 ht =>
        injection h with h1 h2
        exact Option.noConfusion h2
      next st1 e1 ht =>
        injection h with h1 h2
        exact Option.noConfusion h2

theorem downloadOne_ok (cfg : Config) (conn : Conn) (item : DItem)
    (st st' : RunSt) (h : downloadOne cfg conn item st = (st', none)) :
    ∃ δ ev, st'.events = st.events ++ δ ∧ bucketAdds δ = [ev] ∧
      ev.addSrc = some item.src ∧ inBucket st' ev ∧
      Event.rmtreeLocal ∉ δ ∧ bucketsLe st st' := by
  unfold downloadOne at h
  split at h
  next hpe =>
    injection h with h1 h2
    subst h1
    refine ⟨[.addMissing item.src], .addMissing item.src, rfl,
      by simp [bucketAdds, Event.isBucketAdd], rfl, ?_, by simp, ?_⟩
    · exact mem_addUnique_self _ _
    · exact ⟨List.Subset.refl _, List.Subset.refl _, List.Subset.refl _,
        subset_addUnique _ _⟩
  next hpe =>
    split at h
    next hsf =>
      injection h with h1 h2
      exact Option.noConfusion h2
    next hsf =>
      split at h
      next st1 ht =>
        injection h with h1 h2
        subst h1
        obtain (⟨-, stm, hc, hcase⟩ | ⟨e, he, -⟩) :=
          tryBody_cases cfg conn item st st1 none ht
        · obtain ⟨hbe, δ0, he0, ha0, hr0⟩ := hc
          rcases hcase with rfl | rfl
          · refine ⟨δ0 ++ [.addSkipped item.src], .addSkipped item.src, ?_, ?_,
              rfl, ?_, ?_, ?_⟩
            · show stm.events ++ [.addSkipped item.src] =
                st.events ++ (δ0 ++ [.addSkipped item.src])
              rw [he0, List.append_assoc]
            · rw [bucketAdds_append, ha0]
              simp [bucketAdds, Event.isBucketAdd]
            · exact mem_addUnique_self _ _
            · simp [List.mem_append, hr0]
            · refine bucketsLe_trans (bucketsLe_of_cleanStep ⟨hbe, δ0, he0, ha0, hr0⟩) ?_
              exact ⟨List.Subset.refl _, List.Subset.refl _, subset_addUnique _ _,
                List.Subset.refl _⟩
          · refine ⟨δ0 ++ [.addSuccessful item.src item.dst],
              .addSuccessful item.src item.dst, ?_, ?_, rfl, ?_, ?_, ?_⟩
            · show stm.events ++ [.addSuccessful item.src item.dst] =
                st.events ++ (δ0 ++ [.addSuccessful item.src item.dst])
              rw [he0, List.append_assoc]
            · rw [bucketAdds_append, ha0]
              simp [bucketAdds, Event.isBucketAdd]
            · exact mem_addUnique_self _ _
            · simp [List.mem_append, hr0]
            · refine bucketsLe_trans (bucketsLe_of_cleanStep ⟨hbe, δ0, he0, ha0, hr0⟩) ?_
              exact ⟨subset_addUnique _ _, List.Subset.refl _, List.Subset.refl _,
                List.Subset.refl _⟩
        · exact Option.noConfusion he
      next st1 e1 ht =>
        injection h with h1 h2
        subst h1
        obtain (⟨hne, -⟩ | ⟨e2, he2, hc⟩) :=
          tryBody_cases cfg conn item st st1 (some e1) ht
        · exact Option.noConfusion hne
        · obtain ⟨hbe, δ0, he0, ha0, hr0⟩ := hc
          refine ⟨δ0 ++ [.addFailed item.src], .addFailed item.src, ?_, ?_,
            rfl, ?_, ?_, ?_⟩
          · show st1.events ++ [.addFailed item.src] =
              st.events ++ (δ0 ++ [.addFailed item.src])
            rw [he0, List.append_assoc]
          · rw [bucketAdds_append, ha0]
            simp [bucketAdds, Event.isBucketAdd]
          · exact ⟨e1, mem_addUnique_self _ _⟩
          · simp [List.mem_append, hr0]
          · refine bucketsLe_trans (bucketsLe_of_cleanStep ⟨hbe, δ0, he0, ha0, hr0⟩) ?_
            exact ⟨List.Subset.refl _, subset_addUnique _ _, List.Subset.refl _,
              List.Subset.refl _⟩

theorem download_files_ok (cfg : Config) (conn : Conn) (items : List DItem)
    (st st' : RunSt) (h : download_files cfg conn items st = (st', none)) :
    ∃ δ, st'.events = st.events ++ δ ∧
      (bucketAdds δ).map Event.addSrc = items.map (fun it => some it.src) ∧
      (∀ ev ∈ bucketAdds δ, inBucket st' ev) ∧
      Event.rmtreeLocal ∉ δ ∧ bucketsLe st st' := by
  induction items generalizing st with
  | nil =>
    unfold download_files at h
    injection h with h1 h2
    subst h1
    exact ⟨[], by simp, by simp [bucketAdds], by simp [bucketAdds],
      by simp, bucketsLe_refl st⟩
  | cons item rest ih =>
    unfold download_files at h
    split at h
    next st1 hd =>
      obtain ⟨δ1, ev1, he1, ha1, hsrc1, hb1, hr1, hl1⟩ :=
        downloadOne_ok cfg conn item st st1 hd
      obtain ⟨δ2, he2, ha2, hb2, hr2, hl2⟩ := ih st1 h
      refine ⟨δ1 ++ δ2, ?_, ?_, ?_, ?_, bucketsLe_trans hl1 hl2⟩
      · rw [he2, he1, List.append_assoc]
      · rw [bucketAdds_append, List.map_append, ha1, ha2]
        simp [hsrc1]
      · intro ev hev
        rw [bucketAdds_append, List.mem_append] at hev
        rcases hev with hev | hev
        · rw [ha1, List.mem_singleton] at hev
          subst hev
          exact inBucket_mono hl2 hb1
        · exact hb2 ev hev
      · simp [List.mem_append, hr1, hr2]
    next st1 e hd =>
      injection h with h1 h2
      exact Option.noConfusion h2

/-- C1: for every completed run of the download loop over the resolved
candidate set `items` (the `to_download` set handed to
`_download_files`), exactly one bucket insertion is recorded per
candidate, in candidate order — so each candidate lands in exactly one
of successful/failed/skipped/missing, the buckets are pairwise disjoint
views of the candidates, and together they cover the candidate set —
and every recorded insertion is backed by membership in the
corresponding bucket of the final state. -/
theorem c1_partition (cfg : Config) (conn : Conn) (items : List DItem)
    (st st' : RunSt) (h : download_files cfg conn items st = (st', none))
    (h0 : st.events = []) :
    (bucketAdds st'.events).map Event.addSrc = items.map (fun it => some it.src) ∧
    ∀ ev ∈ bucketAdds st'.events, inBucket st' ev := by
  obtain ⟨δ, he, ha, hb, -, -⟩ := download_files_ok cfg conn items st st' h
  rw [he, h0, List.nil_append]
  exact ⟨ha, hb⟩

/-- Witness for C1: a four-candidate run in which one file downloads,
one fails (injected download error), one is skipped (destination exists
under mode `ignore`) and one is missing from the source. -/
theorem c1_partition_witness :
    download_files fixCfgC1 fixConnC1 fixItemsC1 fixStC1 =
        ((download_files fixCfgC1 fixConnC1 fixItemsC1 fixStC1).1, none) ∧
    (bucketAdds (download_files fixCfgC1 fixConnC1 fixItemsC1 fixStC1).1.events).map
        Event.addSrc = [some fixRA, some fixRB, some fixRC, some fixRD] :=
  ⟨by decide,
   (c1_partition fixCfgC1 fixConnC1 fixItemsC1 fixStC1
      (download_files fixCfgC1 fixConnC1 fixItemsC1 fixStC1).1
      (by decide) (by decide)).1.trans (by decide)⟩

/-- C7: a candidate whose source file no longer exists at transfer time
is recorded in the `missing` bucket — the `failed` bucket is untouched —
and `_download_file` returns normally, so the loop continues with the
next candidate. -/
theorem c7_missing (cfg : Config) (conn : Conn) (item : DItem) (st : RunSt)
    (h : fsLookup st.remote item.src = none) :
    downloadOne cfg conn item st = (recMissing st item.src, none) ∧
    (recMissing st item.src).missing = addUnique st.missing item.src ∧
    (recMissing st item.src).failed = st.failed := by
  refine ⟨?_, rfl, rfl⟩
  unfold downloadOne
  rw [if_pos]
  simp [pathExists, h]

/-- Witness for C7: a concrete candidate absent from the remote listing
lands in `missing` and the loop is not aborted. -/
theorem c7_missing_witness :
    fsLookup fixStEmpty.remote fixItemGone.src = none ∧
    downloadOne fixCfgPlain {} fixItemGone fixStEmpty =
      (recMissing fixStEmpty fixItemGone.src, none) :=
  ⟨by decide,
   (c7_missing fixCfgPlain {} fixItemGone fixStEmpty (by decide)).1⟩

/-- C2 (code bug, file_downloader.py lines 629-678): the claim says any
exception raised while transferring a candidate — including one from
`get_file` — is captured, the candidate recorded as failed, and the run
continues with the next candidate.  But when `connection.get_file`
itself raises inside `_download_file`, the `except` handler reads the
local `remote_file`, which was never bound, and raises
`UnboundLocalError`; that exception propagates and aborts the whole
run.  Here remote file `a` exists (it passed the `path_exists` check
and the stat performed during validation) but its `get_file` call in
`_download_file` fails: the run aborts, nothing is recorded in any
bucket, and candidate `b` is never processed. -/
theorem c2_get_file_abort :
    runModel fixCfgSrc { statFailsDownload := [fixRA] } fixStratSnap
        (some [fixRA, fixRB]) [(fixRA, 1), (fixRB, 2)] [] [] none =
      ({ initSt [(fixRA, 1), (fixRB, 2)] [] [] none with
           localDirs := [fixLocal] }, some .unboundLocal) := by
  decide

/-- C5: with `hwm_type` set, `run` fails fast with a `ValueError` from
`_check_strategy` — the very first statement of `run`, before any I/O,
leaving the state untouched — whenever the current strategy is not an
HWM strategy, or is a batch-incremental strategy, or carries a
non-empty (truthy) offset. -/
theorem c5_strategy_fail_fast (cfg : Config) (conn : Conn) (s : Strategy)
    (files : Option (List FPath)) (remote : List (FPath × Nat))
    (localFS : List (FPath × FileData)) (localDirs : List FPath)
    (store : Option (List FPath)) (hh : cfg.hwm_type = true)
    (hbad : s.isHWM = false ∨ s.isBatch = true ∨ s.offset ≠ 0) :
    runModel cfg conn s files remote localFS localDirs store =
      (initSt remote localFS localDirs store, some .valueError) := by
  have hcs : check_strategy cfg s = some .valueError := by
    unfold check_strategy
    rw [hh]
    rcases hbad with h | h | h
    · simp [h]
    · rcases hb : s.isHWM with _ | _
      · simp [hb]
      · rcases ho : s.offset with _ | n
        · simp [hb, ho, h]
        · simp [hb, ho]
    · rcases hb : s.isHWM with _ | _
      · simp [hb]
      · simp [hb, h]
  unfold runModel
  rw [hcs]

/-- Witness for C5: a batch-incremental strategy with `hwm_type` set is
rejected with `ValueError` before anything happens. -/
theorem c5_strategy_fail_fast_witness :
    fixCfgHwm.hwm_type = true ∧ fixStratBatch.isBatch = true ∧
    runModel fixCfgHwm {} fixStratBatch none [(fixRA, 1)] [] [] none =
      (initSt [(fixRA, 1)] [] [] none, some .valueError) :=
  ⟨rfl, rfl, c5_strategy_fail_fast fixCfgHwm {} fixStratBatch none
    [(fixRA, 1)] [] [] none rfl (.inr (.inl rfl))⟩

theorem downloadFileOp_localFS_other (conn : Conn) (st : RunSt) (src tgt : FPath)
    (replace : Bool) (q : FPath) (hq : q ≠ tgt) :
    fsLookup (downloadFileOp conn st src tgt replace).1.localFS q =
      fsLookup st.localFS q := by
  unfold downloadFileOp
  split
  · rfl
  next c hc =>
    split
    · simp [fsLookup_fsSet, hq]
    · split
      · rfl
      · simp [fsLookup_fsSet, hq]

theorem downloadFileOp_remote (conn : Conn) (st : RunSt) (src tgt : FPath)
    (replace : Bool) :
    (downloadFileOp conn st src tgt replace).1.remote = st.remote := by
  unfold downloadFileOp
  split
  · rfl
  next c hc =>
    split
    · rfl
    · split <;> rfl

theorem downloadFileOp_ok (conn : Conn) (st : RunSt) (src tgt : FPath)
    (replace : Bool) (st' : RunSt)
    (h : downloadFileOp conn st src tgt replace = (st', none)) :
    ∃ c, fsLookup st.remote src = some c ∧
      st'.localFS = fsSet st.localFS tgt (.full c) := by
  unfold downloadFileOp at h
  split at h
  · injection h with h1 h2
    exact Option.noConfusion h2
  next c hc =>
    split at h
    · injection h with h1 h2
      exact Option.noConfusion h2
    · split at h
      · injection h with h1 h2
        exact Option.noConfusion h2
      · injection h with h1 h2
        exact ⟨c, hc, by rw [← h1]⟩

theorem hwmStep_localFS (conn : Conn) (st : RunSt) (src : FPath) :
    (hwmStep conn st src).1.localFS = st.localFS := by
  unfold hwmStep
  split
  · rfl
  · split <;> rfl

theorem deleteSourceStep_localFS (cfg : Config) (conn : Conn) (st : RunSt)
    (src : FPath) :
    (deleteSourceStep cfg conn st src).1.localFS = st.localFS := by
  unfold deleteSourceStep
  split
  · split <;> rfl
  · rfl

theorem moveOp_fail_state (conn : Conn) (st : RunSt) (src tmp dst : FPath)
    (st' : RunSt) (e : PyErr) (h : moveOp conn st src tmp dst = (st', some e)) :
    st' = st := by
  unfold moveOp at h
  split at h
  · injection h with h1 h2
    exact h1.symm
  · split at h
    · injection h with h1 h2
      exact h1.symm
    next d hd =>
      injection h with h1 h2
      exact Option.noConfusion h2

theorem moveOp_ok (conn : Conn) (st : RunSt) (src tmp dst : FPath) (st' : RunSt)
    (h : moveOp conn st src tmp dst = (st', none)) :
    ∃ d, fsLookup st.localFS tmp = some d ∧
      st'.localFS = fsSet (fsRemove st.localFS tmp) dst d := by
  unfold moveOp at h
  split at h
  · injection h with h1 h2
    exact Option.noConfusion h2
  · split at h
    · injection h with h1 h2
      exact Option.noConfusion h2
    next d hd =>
      injection h with h1 h2
      exact ⟨d, hd, by rw [← h1]⟩

theorem transferStep_dst (conn : Conn) (item : DItem) (st : RunSt)
    (replace : Bool) (t : FPath) (htmp : item.tmp = some t)
    (hne : t ≠ item.dst) (stA : RunSt) (oe : Option PyErr)
    (h : transferStep conn st item replace = (stA, oe)) :
    fsLookup stA.localFS item.dst = fsLookup st.localFS item.dst ∨
    fsLookup stA.localFS item.dst = none ∨
    ∃ c, fsLookup st.remote item.src = some c ∧
         fsLookup stA.localFS item.dst = some (.full c) := by
  unfold transferStep at h
  rw [htmp] at h
  split at h
  case h_2 x heq => exact Option.noConfusion heq
  case h_1 tmpFile heq => ?_
  injection heq with heq
  subst heq
  split at h
  next stB e hdl =>
    injection h with h1 h2
    subst h1
    left
    have hother := downloadFileOp_localFS_other conn st item.src t replace item.dst
      (fun hh => hne hh.symm)
    rw [hdl] at hother
    exact hother
  next stB hdl =>
    obtain ⟨c, hc, hfs⟩ := downloadFileOp_ok conn st item.src t replace stB hdl
    have hBt : fsLookup stB.localFS t = some (.full c) := by
      rw [hfs, fsLookup_fsSet]
      simp
    have hBd : fsLookup stB.localFS item.dst = fsLookup st.localFS item.dst := by
      rw [hfs, fsLookup_fsSet, if_neg (fun hh : item.dst = t => hne hh.symm)]
    cases oe with
    | some e =>
      have hst := moveOp_fail_state conn _ item.src t item.dst stA e h
      subst hst
      by_cases hrep : replace ∧ (fsLookup stB.localFS item.dst).isSome
      · right; left
        simp only [mkdirParent, hrep, if_true]
        show fsLookup (fsRemove stB.localFS item.dst) item.dst = none
        rw [fsLookup_fsRemove, if_pos rfl]
      · left
        simp only [mkdirParent, hrep, if_false]
        exact hBd
    | none =>
      obtain ⟨d, hd, hres⟩ := moveOp_ok conn _ item.src t item.dst stA h
      have hdt : d = .full c := by
        by_cases hrep : replace ∧ (fsLookup stB.localFS item.dst).isSome
        · simp only [mkdirParent, hrep, if_true] at hd
          change fsLookup (fsRemove stB.localFS item.dst) t = some d at hd
          rw [fsLookup_fsRemove, if_neg hne, hBt] at hd
          exact (Option.some.injEq _ _ ▸ hd).symm
        · simp only [mkdirParent, hrep, if_false] at hd
          change fsLookup stB.localFS t = some d at hd
          rw [hBt] at hd
          exact (Option.some.injEq _ _ ▸ hd).symm
      right; right
      refine ⟨c, hc, ?_⟩
      rw [hres, fsLookup_fsSet, if_pos rfl, hdt]

theorem tryBody_dst (cfg : Config) (conn : Conn) (item : DItem) (st : RunSt)
    (t : FPath) (htmp : item.tmp = some t) (hne : t ≠ item.dst)
    (st1 : RunSt) (oe : Option PyErr) (ht : tryBody cfg conn item st = (st1, oe)) :
    fsLookup st1.localFS item.dst = fsLookup st.localFS item.dst ∨
    fsLookup st1.localFS item.dst = none ∨
    ∃ c, fsLookup st.remote item.src = some c ∧
         fsLookup st1.localFS item.dst = some (.full c) := by
  unfold tryBody at ht
  split at ht
  · injection ht with h1 h2
    subst h1
    left
    rfl
  · split at ht
    · injection ht with h1 h2
      subst h1
      left
      rfl
    · split at ht
      next stA e htr =>
        injection ht with h1 h2
        subst h1
        exact transferStep_dst conn item st _ t htmp hne stA (some e) htr
      next stA htr =>
        have hD := transferStep_dst conn item st _ t htmp hne stA none htr
        split at ht
        next stB e2 hh =>
          injection ht with h1 h2
          subst h1
          have hBA : stB.localFS = stA.localFS := by
            have := hwmStep_localFS conn stA item.src
            rw [hh] at this
            exact this
          rw [hBA]
          exact hD
        next stB hh =>
          have hBA : stB.localFS = stA.localFS := by
            have := hwmStep_localFS conn stA item.src
            rw [hh] at this
            exact this
          split at ht
          next stC e3 hdel =>
            injection ht with h1 h2
            subst h1
            have hCB : stC.localFS = stB.localFS := by
              have := deleteSourceStep_localFS cfg conn stB item.src
              rw [hdel] at this
              exact this
            rw [hCB, hBA]
            exact hD
          next stC hdel =>
            injection ht with h1 h2
            subst h1
            have hCB : stC.localFS = stB.localFS := by
              have := deleteSourceStep_localFS cfg conn stB item.src
              rw [hdel] at this
              exact this
            rw [show (recSuccessful stC item.src item.dst).localFS = stC.localFS
              from rfl, hCB, hBA]
            exact hD

/-- C4: when a temp path is configured for a candidate, the destination
file is only ever removed/replaced after the temp download fully
succeeded, so whatever happens during the transfer — including injected
failures at any call — the destination path afterwards holds its
pre-run content, or is absent, or holds the complete source content;
in particular it never holds a half-written file unless it already did
before the run. -/
theorem c4_temp_staging (cfg : Config) (conn : Conn) (item : DItem) (st : RunSt)
    (t : FPath) (htmp : item.tmp = some t) (hne : t ≠ item.dst)
    (st' : RunSt) (oe : Option PyErr)
    (h : downloadOne cfg conn item st = (st', oe)) :
    (fsLookup st'.localFS item.dst = fsLookup st.localFS item.dst ∨
     fsLookup st'.localFS item.dst = none ∨
     ∃ c, fsLookup st.remote item.src = some c ∧
          fsLookup st'.localFS item.dst = some (.full c)) ∧
    (fsLookup st.localFS item.dst ≠ some .halfWritten →
     fsLookup st'.localFS item.dst ≠ some .halfWritten) := by
  have hD : fsLookup st'.localFS item.dst = fsLookup st.localFS item.dst ∨
      fsLookup st'.localFS item.dst = none ∨
      ∃ c, fsLookup st.remote item.src = some c ∧
           fsLookup st'.localFS item.dst = some (.full c) := by
    unfold downloadOne at h
    split at h
    · injection h with h1 h2
      subst h1
      left
      rfl
    · split at h
      · injection h with h1 h2
        subst h1
        left
        rfl
      · split at h
        next st1 ht =>
          injection h with h1 h2
          subst h1
          exact tryBody_dst cfg conn item st t htmp hne st1 none ht
        next st1 e1 ht =>
          injection h with h1 h2
          subst h1
          have hres := tryBody_dst cfg conn item st t htmp hne st1 (some e1) ht
          rw [show (recFailed st1 item.src e1).localFS = st1.localFS from rfl]
          exact hres
  refine ⟨hD, fun hpre => ?_⟩
  rcases hD with he | he | ⟨c, hc, he⟩
  · rw [he]
    exact hpre
  · rw [he]
    simp
  · rw [he]
    simp

/-- Witness for C4: an injected temp-download failure leaves the
pre-existing destination content untouched (the half-written garbage
sits at the temp path, not at the destination). -/
theorem c4_temp_staging_witness :
    downloadOne { fixCfgSrc with mode := .overwrite, temp_path := some ⟨true, ["tmp"]⟩ }
        { downloadFails := [fixRA] }
        ⟨fixRA, fixLA, some ⟨true, ["tmp", "a"]⟩⟩
        (initSt [(fixRA, 1)] [(fixLA, .full 5)] [] none) =
      ((downloadOne { fixCfgSrc with mode := .overwrite, temp_path := some ⟨true, ["tmp"]⟩ }
        { downloadFails := [fixRA] }
        ⟨fixRA, fixLA, some ⟨true, ["tmp", "a"]⟩⟩
        (initSt [(fixRA, 1)] [(fixLA, .full 5)] [] none)).1, none) ∧
    (fsLookup (downloadOne { fixCfgSrc with mode := .overwrite, temp_path := some ⟨true, ["tmp"]⟩ }
        { downloadFails := [fixRA] }
        ⟨fixRA, fixLA, some ⟨true, ["tmp", "a"]⟩⟩
        (initSt [(fixRA, 1)] [(fixLA, .full 5)] [] none)).1.localFS fixLA =
          fsLookup (initSt [(fixRA, 1)] [(fixLA, .full 5)] [] none).localFS fixLA ∨
     fsLookup (downloadOne { fixCfgSrc with mode := .overwrite, temp_path := some ⟨true, ["tmp"]⟩ }
        { downloadFails := [fixRA] }
        ⟨fixRA, fixLA, some ⟨true, ["tmp", "a"]⟩⟩
        (initSt [(fixRA, 1)] [(fixLA, .full 5)] [] none)).1.localFS fixLA = none ∨
     ∃ c, fsLookup (initSt [(fixRA, 1)] [(fixLA, .full 5)] [] none).remote fixRA = some c ∧
       fsLookup (downloadOne { fixCfgSrc with mode := .overwrite, temp_path := some ⟨true, ["tmp"]⟩ }
        { downloadFails := [fixRA] }
        ⟨fixRA, fixLA, some ⟨true, ["tmp", "a"]⟩⟩
        (initSt [(fixRA, 1)] [(fixLA, .full 5)] [] none)).1.localFS fixLA = some (.full c)) :=
  ⟨by decide,
   (c4_temp_staging { fixCfgSrc with mode := .overwrite, temp_path := some ⟨true, ["tmp"]⟩ }
      { downloadFails := [fixRA] }
      ⟨fixRA, fixLA, some ⟨true, ["tmp", "a"]⟩⟩
      (initSt [(fixRA, 1)] [(fixLA, .full 5)] [] none)
      ⟨true, ["tmp", "a"]⟩ rfl (by decide)
      (downloadOne { fixCfgSrc with mode := .overwrite, temp_path := some ⟨true, ["tmp"]⟩ }
        { downloadFails := [fixRA] }
        ⟨fixRA, fixLA, some ⟨true, ["tmp", "a"]⟩⟩
        (initSt [(fixRA, 1)] [(fixLA, .full 5)] [] none)).1 none (by decide)).1⟩

/-- C8: when the watermark is active (`hwm_type` set and an HWM-capable
strategy, so `_hwm_processing` passed a `file_hwm` into the loop), a
successful transfer updates the in-memory HWM with the transferred file
and immediately saves it to the store — exactly one save event per
transferred file, placed after the transfer events, before the optional
source deletion and before the success record is added. -/
theorem c8_hwm_per_file (cfg : Config) (conn : Conn) (item : DItem) (st : RunSt)
    (h0 : List FPath) (c : Nat) (hh : st.hwm = some h0)
    (hc : fsLookup st.remote item.src = some c)
    (hno1 : item.src ∉ conn.statFailsDownload)
    (hno2 : item.src ∉ conn.downloadFails)
    (hno3 : item.src ∉ conn.moveFails)
    (hno4 : item.src ∉ conn.saveFails)
    (hno5 : item.src ∉ conn.removeFails)
    (hld : fsLookup st.localFS item.dst = none)
    (hlt : ∀ t, item.tmp = some t → fsLookup st.localFS t = none) :
    ∃ st', downloadOne cfg conn item st = (st', none) ∧
      st'.hwm = some (hwmUpdate h0 item.src) ∧
      st'.store = some (hwmUpdate h0 item.src) ∧
      st'.events = st.events ++
        (match item.tmp with
         | none => [Event.downloaded item.src item.dst]
         | some t => [Event.downloaded item.src t, Event.moved t item.dst]) ++
        [Event.hwmSaved item.src] ++
        (if cfg.delete_source then [Event.removedSource item.src] else []) ++
        [Event.addSuccessful item.src item.dst] ∧
      item.dst ∈ st'.successful := by
  have hpe : pathExists st item.src = true := by
    simp [pathExists, hc]
  cases htmp : item.tmp with
  | none =>
    by_cases hdel : cfg.delete_source
    · refine ⟨{ st with
          localFS := fsSet st.localFS item.dst (.full c),
          hwm := some (hwmUpdate h0 item.src),
          store := some (hwmUpdate h0 item.src),
          remote := fsRemove st.remote item.src,
          successful := addUnique st.successful item.dst,
          events := st.events ++ [.downloaded item.src item.dst,
            .hwmSaved item.src, .removedSource item.src,
            .addSuccessful item.src item.dst] },
        ?_, rfl, rfl, ?_, mem_addUnique_self _ _⟩
      · unfold downloadOne tryBody transferStep downloadFileOp hwmStep
          deleteSourceStep recSuccessful
        simp [pathExists, hc, hno1, hno2, hno4, hno5, hld, htmp, hh, hdel]
      · simp [htmp, hdel]
    · refine ⟨{ st with
          localFS := fsSet st.localFS item.dst (.full c),
          hwm := some (hwmUpdate h0 item.src),
          store := some (hwmUpdate h0 item.src),
          successful := addUnique st.successful item.dst,
          events := st.events ++ [.downloaded item.src item.dst,
            .hwmSaved item.src, .addSuccessful item.src item.dst] },
        ?_, rfl, rfl, ?_, mem_addUnique_self _ _⟩
      · unfold downloadOne tryBody transferStep downloadFileOp hwmStep
          deleteSourceStep recSuccessful
        simp [pathExists, hc, hno1, hno2, hno4, hno5, hld, htmp, hh, hdel]
      · simp [htmp, hdel]
  | some t =>
    have hlt2 : fsLookup st.localFS t = none := hlt t htmp
    by_cases hdel : cfg.delete_source
    · refine ⟨{ st with
          localFS := fsSet (fsRemove (fsSet st.localFS t (.full c)) t)
            item.dst (.full c),
          localDirs := addUnique st.localDirs item.dst.parent,
          hwm := some (hwmUpdate h0 item.src),
          store := some (hwmUpdate h0 item.src),
          remote := fsRemove st.remote item.src,
          successful := addUnique st.successful item.dst,
          events := st.events ++ [.downloaded item.src t, .moved t item.dst,
            .hwmSaved item.src, .removedSource item.src,
            .addSuccessful item.src item.dst] },
        ?_, rfl, rfl, ?_, mem_addUnique_self _ _⟩
      · unfold downloadOne tryBody transferStep downloadFileOp moveOp mkdirParent
          hwmStep deleteSourceStep recSuccessful
        simp [pathExists, hc, hno1, hno2, hno3, hno4, hno5, hld, hlt2, htmp, hh,
          hdel, fsLookup_fsSet]
      · simp [htmp, hdel]
    · refine ⟨{ st with
          localFS := fsSet (fsRemove (fsSet st.localFS t (.full c)) t)
            item.dst (.full c),
          localDirs := addUnique st.localDirs item.dst.parent,
          hwm := some (hwmUpdate h0 item.src),
          store := some (hwmUpdate h0 item.src),
          successful := addUnique st.successful item.dst,
          events := st.events ++ [.downloaded item.src t, .moved t item.dst,
            .hwmSaved item.src, .addSuccessful item.src item.dst] },
        ?_, rfl, rfl, ?_, mem_addUnique_self _ _⟩
      · unfold downloadOne tryBody transferStep downloadFileOp moveOp mkdirParent
          hwmStep deleteSourceStep recSuccessful
        simp [pathExists, hc, hno1, hno2, hno3, hno4, hno5, hld, hlt2, htmp, hh,
          hdel, fsLookup_fsSet]
      · simp [htmp, hdel]

/-- Witness for C8: one concrete transfer under an active watermark with
source deletion enabled — the save event sits between the download and
the source removal, which precedes the success record. -/
theorem c8_hwm_per_file_witness :
    fixSt8.hwm = some [] ∧
    (∃ st', downloadOne fixCfg8 {} fixItemA fixSt8 = (st', none) ∧
      st'.hwm = some (hwmUpdate [] fixItemA.src) ∧
      st'.store = some (hwmUpdate [] fixItemA.src) ∧
      st'.events = fixSt8.events ++ [Event.downloaded fixRA fixLA] ++
        [Event.hwmSaved fixItemA.src] ++ [Event.removedSource fixItemA.src] ++
        [Event.addSuccessful fixItemA.src fixItemA.dst] ∧
      fixItemA.dst ∈ st'.successful) :=
  ⟨rfl, c8_hwm_per_file fixCfg8 {} fixItemA fixSt8 [] 1 rfl (by decide)
    (by decide) (by decide) (by decide) (by decide) (by decide) (by decide)
    (fun t ht => Option.noConfusion ht)⟩

theorem runModel_to_checked (cfg : Config) (conn : Conn) (strat : Strategy)
    (files : Option (List FPath)) (remote : List (FPath × Nat))
    (localFS : List (FPath × FileData)) (localDirs : List FPath)
    (store : Option (List FPath)) (stF : RunSt)
    (h : runModel cfg conn strat files remote localFS localDirs store =
      (stF, none)) :
    runChecked cfg conn files
      { initSt remote localFS localDirs store with
          localDirs := addUnique localDirs cfg.local_path } = (stF, none) := by
  unfold runModel at h
  split at h
  · injection h with h1 h2
    exact Option.noConfusion h2
  · split at h
    · injection h with h1 h2
      exact Option.noConfusion h2
    · split at h
      · injection h with h1 h2
        exact Option.noConfusion h2
      · exact h

theorem runChecked_some_fs (cfg : Config) (conn : Conn) (fs : List FPath)
    (st1 : RunSt) (stF : RunSt) (hfs : fs ≠ [])
    (h : runChecked cfg conn (some fs) st1 = (stF, none)) :
    runResolved cfg conn fs st1 = (stF, none) := by
  unfold runChecked at h
  split at h
  · injection h with h1 h2
    exact Option.noConfusion h2
  · split at h
    · injection h with h1 h2
      exact Option.noConfusion h2
    · split at h
      next e hve =>
        injection h with h1 h2
        exact Option.noConfusion h2
      next fs2 hve =>
        have hve2 : Except.ok (ε := PyErr) fs = Except.ok fs2 := hve
        injection hve2 with hve3
        subst hve3
        split at h
        next hempty =>
          exact absurd (List.isEmpty_iff.mp hempty) hfs
        next hempty =>
          exact h

theorem runResolved_to_loop (cfg : Config) (conn : Conn) (fs : List FPath)
    (st1 : RunSt) (stF : RunSt)
    (h : runResolved cfg conn fs st1 = (stF, none)) :
    ∃ items, validate_files cfg conn st1
        (cfg.temp_path.map generate_temp_path) fs = .ok items ∧
      runLoop cfg conn items (cfg.temp_path.map generate_temp_path) st1 =
        (stF, none) := by
  unfold runResolved at h
  split at h
  next e hval =>
    injection h with h1 h2
    exact Option.noConfusion h2
  next items hval =>
    exact ⟨items, hval, h⟩

theorem runLoop_delete_all_head (cfg : Config) (conn : Conn)
    (items : List DItem) (ctd : Option FPath) (st1 : RunSt) (stF : RunSt)
    (hmode : cfg.mode = .delete_all) (hev : st1.events = [])
    (h : runLoop cfg conn items ctd st1 = (stF, none)) :
    ∃ tl, stF.events = Event.rmtreeLocal :: tl ∧ Event.rmtreeLocal ∉ tl := by
  unfold runLoop at h
  rw [if_pos hmode] at h
  have hev3 : (hwmLoad cfg (rmtreeLocalOp st1 cfg.local_path)).events =
      [Event.rmtreeLocal] := by
    unfold hwmLoad rmtreeLocalOp
    split <;> simp [hev]
  split at h
  next st4 e hd =>
    injection h with h1 h2
    exact Option.noConfusion h2
  next st4 hd =>
    obtain ⟨δ, he4, -, -, hr4, -⟩ := download_files_ok cfg conn items _ st4 hd
    rw [hev3] at he4
    cases ctd with
    | some td =>
      injection h with h1 h2
      subst h1
      refine ⟨δ ++ [.rmtreeTemp], ?_, ?_⟩
      · show st4.events ++ [Event.rmtreeTemp] =
          Event.rmtreeLocal :: (δ ++ [Event.rmtreeTemp])
        rw [he4]
        simp
      · simp [List.mem_append, hr4]
    | none =>
      injection h with h1 h2
      subst h1
      refine ⟨δ, ?_, hr4⟩
      rw [he4]
      simp

theorem run_delete_all_head (cfg : Config) (conn : Conn) (strat : Strategy)
    (fs : List FPath) (remote : List (FPath × Nat))
    (localFS : List (FPath × FileData)) (localDirs : List FPath)
    (store : Option (List FPath)) (stF : RunSt)
    (hmode : cfg.mode = .delete_all) (hfs : fs ≠ [])
    (hrun : runModel cfg conn strat (some fs) remote localFS localDirs store =
      (stF, none)) :
    ∃ tl, stF.events = Event.rmtreeLocal :: tl ∧ Event.rmtreeLocal ∉ tl := by
  have h1 := runModel_to_checked cfg conn strat (some fs) remote localFS
    localDirs store stF hrun
  have h2 := runChecked_some_fs cfg conn fs _ stF hfs h1
  obtain ⟨items, hval, hloop⟩ := runResolved_to_loop cfg conn fs _ stF h2
  exact runLoop_delete_all_head cfg conn items _ _ stF hmode rfl hloop

theorem hwmStep_ok (conn : Conn) (st : RunSt) (src : FPath)
    (hno : src ∉ conn.saveFails) :
    ∃ st', hwmStep conn st src = (st', none) ∧ st'.localFS = st.localFS ∧
      st'.successful = st.successful := by
  unfold hwmStep
  cases hh : st.hwm with
  | none => exact ⟨st, rfl, rfl, rfl⟩
  | some h =>
    exact ⟨{ st with
        hwm := some (hwmUpdate h src),
        store := some (hwmUpdate h src),
        events := st.events ++ [.hwmSaved src] }, by simp [hno], rfl, rfl⟩

theorem deleteSourceStep_ok (cfg : Config) (conn : Conn) (st : RunSt)
    (src : FPath) (hno : src ∉ conn.removeFails) :
    ∃ st', deleteSourceStep cfg conn st src = (st', none) ∧
      st'.localFS = st.localFS ∧ st'.successful = st.successful := by
  unfold deleteSourceStep
  by_cases hd : cfg.delete_source
  · exact ⟨{ st with
      remote := fsRemove st.remote src,
      events := st.events ++ [.removedSource src] }, by simp [hd, hno], rfl, rfl⟩
  · exact ⟨st, by simp [hd], rfl, rfl⟩

theorem transferStep_replace_ok (conn : Conn) (st : RunSt) (item : DItem)
    (c : Nat) (d0 : FileData)
    (hc : fsLookup st.remote item.src = some c)
    (hl : fsLookup st.localFS item.dst = some d0)
    (hno2 : item.src ∉ conn.downloadFails)
    (hno3 : item.src ∉ conn.moveFails)
    (htmp : ∀ t, item.tmp = some t →
      fsLookup st.localFS t = none ∧ t ≠ item.dst) :
    ∃ st', transferStep conn st item true = (st', none) ∧
      fsLookup st'.localFS item.dst = some (.full c) ∧
      st'.hwm = st.hwm ∧ st'.successful = st.successful := by
  cases htm : item.tmp with
  | none =>
    refine ⟨{ st with
        localFS := fsSet st.localFS item.dst (.full c),
        events := st.events ++ [.downloaded item.src item.dst] }, ?_, ?_, rfl, rfl⟩
    · unfold transferStep downloadFileOp
      simp [htm, hc, hno2]
    · rw [fsLookup_fsSet, if_pos rfl]
  | some t =>
    obtain ⟨hlt, hne⟩ := htmp t htm
    have hne2 : item.dst ≠ t := fun hh => hne hh.symm
    refine ⟨{ st with
        localFS := fsSet (fsRemove (fsRemove (fsSet st.localFS t (.full c))
          item.dst) t) item.dst (.full c),
        localDirs := addUnique st.localDirs item.dst.parent,
        events := st.events ++ [.downloaded item.src t, .unlinked item.dst,
          .moved t item.dst] }, ?_, ?_, rfl, rfl⟩
    · unfold transferStep downloadFileOp unlinkOp moveOp mkdirParent
      simp [htm, hc, hno2, hno3, hlt, hl, fsLookup_fsSet, fsLookup_fsRemove,
        hne, hne2]
    · rw [fsLookup_fsSet, if_pos rfl]

theorem downloadOne_overwrite_ok (cfg : Config) (conn : Conn) (item : DItem)
    (st : RunSt) (c : Nat) (d0 : FileData) (hmode : cfg.mode = .overwrite)
    (hc : fsLookup st.remote item.src = some c)
    (hl : fsLookup st.localFS item.dst = some d0)
    (hno1 : item.src ∉ conn.statFailsDownload)
    (hno2 : item.src ∉ conn.downloadFails)
    (hno3 : item.src ∉ conn.moveFails)
    (hno4 : item.src ∉ conn.saveFails)
    (hno5 : item.src ∉ conn.removeFails)
    (htmp : ∀ t, item.tmp = some t →
      fsLookup st.localFS t = none ∧ t ≠ item.dst) :
    ∃ st', downloadOne cfg conn item st = (st', none) ∧
      item.dst ∈ st'.successful ∧
      fsLookup st'.localFS item.dst = some (.full c) := by
  obtain ⟨stT, hT, hTl, hThwm, hTsucc⟩ :=
    transferStep_replace_ok conn st item c d0 hc hl hno2 hno3 htmp
  obtain ⟨stH, hH, hHl, hHsucc⟩ := hwmStep_ok conn stT item.src hno4
  obtain ⟨stD, hD, hDl, hDsucc⟩ := deleteSourceStep_ok cfg conn stH item.src hno5
  refine ⟨recSuccessful stD item.src item.dst, ?_, mem_addUnique_self _ _, ?_⟩
  · unfold downloadOne tryBody
    simp [pathExists, hc, hno1, hl, hmode, hT, hH, hD]
  · show fsLookup stD.localFS item.dst = some (.full c)
    rw [hDl, hHl, hTl]

/-- C3: for a candidate whose destination file already exists — mode
`error` records it as failed with a file-already-exists error and leaves
the local filesystem untouched; mode `ignore` records it as skipped and
leaves the local filesystem untouched; mode `overwrite` records it as
successful and the destination afterwards holds the source content; and
under mode `delete_all` every completed run's very first recorded side
effect is the single destination wipe, performed once before the loop,
before any file is written. -/
theorem c3_conflict_modes (cfg : Config) (conn : Conn) (item : DItem)
    (st : RunSt) (d0 : FileData) (c : Nat)
    (hl : fsLookup st.localFS item.dst = some d0)
    (hc : fsLookup st.remote item.src = some c)
    (hno1 : item.src ∉ conn.statFailsDownload)
    (hno2 : item.src ∉ conn.downloadFails)
    (hno3 : item.src ∉ conn.moveFails)
    (hno4 : item.src ∉ conn.saveFails)
    (hno5 : item.src ∉ conn.removeFails)
    (htmp : ∀ t, item.tmp = some t →
      fsLookup st.localFS t = none ∧ t ≠ item.dst) :
    (downloadOne { cfg with mode := .error } conn item st =
        (recFailed st item.src (.fileExists item.dst), none) ∧
      (recFailed st item.src (.fileExists item.dst)).localFS = st.localFS) ∧
    (downloadOne { cfg with mode := .ignore } conn item st =
        (recSkipped st item.src, none) ∧
      (recSkipped st item.src).localFS = st.localFS) ∧
    (∃ st', downloadOne { cfg with mode := .overwrite } conn item st =
        (st', none) ∧ item.dst ∈ st'.successful ∧
      fsLookup st'.localFS item.dst = some (.full c)) ∧
    (∀ conn2 strat fs remote localFS localDirs store stF,
      cfg.mode = .delete_all → fs ≠ [] →
      runModel cfg conn2 strat (some fs) remote localFS localDirs store =
        (stF, none) →
      ∃ tl, stF.events = Event.rmtreeLocal :: tl ∧ Event.rmtreeLocal ∉ tl) := by
  refine ⟨⟨?_, rfl⟩, ⟨?_, rfl⟩, ?_, ?_⟩
  · unfold downloadOne tryBody
    simp [pathExists, hc, hno1, hl]
  · unfold downloadOne tryBody
    simp [pathExists, hc, hno1, hl]
  · exact downloadOne_overwrite_ok { cfg with mode := .overwrite } conn item st
      c d0 rfl hc hl hno1 hno2 hno3 hno4 hno5 htmp
  · intro conn2 strat fs remote localFS localDirs store stF hmode hfs hrun
    exact run_delete_all_head cfg conn2 strat fs remote localFS localDirs
      store stF hmode hfs hrun

/-- Witness for C3: concrete candidate with a pre-existing destination,
instantiated at all four conflict modes (the run-level part at a
completed one-file `delete_all` run). -/
theorem c3_conflict_modes_witness :
    (downloadOne { fixCfgDel with mode := .error } {} fixItemA fixStC3 =
        (recFailed fixStC3 fixItemA.src (.fileExists fixItemA.dst), none)) ∧
    (downloadOne { fixCfgDel with mode := .ignore } {} fixItemA fixStC3 =
        (recSkipped fixStC3 fixItemA.src, none)) ∧
    (∃ st', downloadOne { fixCfgDel with mode := .overwrite } {} fixItemA
        fixStC3 = (st', none) ∧ fixItemA.dst ∈ st'.successful ∧
      fsLookup st'.localFS fixItemA.dst = some (.full 1)) ∧
    (∃ tl, (runModel fixCfgDel {} fixStratSnap (some [fixRA]) [(fixRA, 1)]
        [(fixLA, .full 5)] [] none).1.events = Event.rmtreeLocal :: tl ∧
      Event.rmtreeLocal ∉ tl) := by
  have H := c3_conflict_modes fixCfgDel {} fixItemA fixStC3 (.full 5) 1
    (by decide) (by decide) (by decide) (by decide) (by decide) (by decide)
    (by decide) (fun t ht => Option.noConfusion ht)
  exact ⟨H.1.1, H.2.1.1, H.2.2.1, H.2.2.2 {} fixStratSnap [fixRA] [(fixRA, 1)]
    [(fixLA, .full 5)] [] none
    (runModel fixCfgDel {} fixStratSnap (some [fixRA]) [(fixRA, 1)]
      [(fixLA, .full 5)] [] none).1 rfl (by decide) (by decide)⟩

/-- Counterexample for C9 as stated: a run over an empty explicit file
list under mode `delete_all` completes with an empty result, yet it
does mutate the destination side — `_check_local_path` runs
`local_path.mkdir(exist_ok=True, parents=True)` before the early
return, so a run that began with no `local` directory ends with one
(`localDirs` grew from `[]` to `[fixLocal]`). -/
theorem c9_empty_run_cex :
    (runModel fixCfgDel {} fixStratSnap (some []) [] [] [] none).2 = none ∧
    (runModel fixCfgDel {} fixStratSnap (some []) [] [] [] none).1.localDirs =
      [fixLocal] ∧
    fixLocal ∉ ([] : List FPath) := by
  decide

/-- C9 (amended): if the resolved candidate set is empty — an explicit
empty list, or an enumeration of `source_path` yielding no files —
`run` returns an empty `DownloadResult` immediately, and apart from
ensuring `local_path` exists (the `mkdir` in `_check_local_path`) it
performs no destination-side mutation: no events are recorded, local
files are untouched, and in particular the `delete_all` wipe of
`local_path` does NOT happen. -/
theorem c9_empty_run (cfg : Config) (conn : Conn) (s : Strategy)
    (remote : List (FPath × Nat)) (localFS : List (FPath × FileData))
    (localDirs : List FPath) (store : Option (List FPath))
    (hs : check_strategy cfg s = none)
    (hlp : fsLookup localFS cfg.local_path = none)
    (hck : conn.checkFails = false)
    (hsd : conn.sourceDirFails = false) :
    (runModel cfg conn s (some []) remote localFS localDirs store =
      ({ initSt remote localFS localDirs store with
           localDirs := addUnique localDirs cfg.local_path }, none)) ∧
    (∀ sp, cfg.source_path = some sp →
      walkFiles remote sp cfg.filterPred
          (if cfg.hwm_type then some (store.getD []) else none) cfg.limit = [] →
      runModel cfg conn s none remote localFS localDirs store =
        ({ initSt remote localFS localDirs store with
             localDirs := addUnique localDirs cfg.local_path }, none)) := by
  constructor
  · unfold runModel runChecked
    rw [hs]
    simp [initSt, hlp, hck, hsd]
  · intro sp hsp hwalk
    unfold runModel runChecked view_files_model
    rw [hs]
    simp [initSt, hsp, hlp, hck, hsd, hwalk]

/-- Witness for C9 (amended): a concrete empty-list run under
`delete_all` with a pre-existing unrelated destination file: the result
is empty, the file survives, and only the destination directory itself
was ensured to exist. -/
theorem c9_empty_run_witness :
    check_strategy fixCfgDel fixStratSnap = none ∧
    runModel fixCfgDel {} fixStratSnap (some []) [] [(fixLC, .full 7)] [] none =
      ({ initSt [] [(fixLC, .full 7)] [] none with
           localDirs := addUnique [] fixCfgDel.local_path }, none) :=
  ⟨rfl, (c9_empty_run fixCfgDel {} fixStratSnap [] [(fixLC, .full 7)] [] none
    rfl (by decide) rfl rfl).1⟩

theorem validate_one_error (cfg : Config) (ctd : Option FPath) (f : FPath)
    (e : PyErr) (h : validate_one cfg ctd f = .error e) : e = .valueError := by
  unfold validate_one at h
  split at h
  · split at h
    · injection h with h1
      exact h1.symm
    · exact Except.noConfusion h
  · split at h
    · exact Except.noConfusion h
    · split at h
      · exact Except.noConfusion h
      · injection h with h1
        exact h1.symm

theorem validate_bad (cfg : Config) (conn : Conn) (st : RunSt)
    (ctd : Option FPath) (fs : List FPath) (acc : List DItem) (f : FPath)
    (hf : f ∈ fs) (hbad : validate_one cfg ctd f = .error .valueError)
    (hstat : conn.statFailsValidate = []) :
    validate_go cfg conn st ctd fs acc = .error .valueError := by
  induction fs generalizing acc with
  | nil => cases hf
  | cons g rest ih =>
    unfold validate_go
    cases hv : validate_one cfg ctd g with
    | error e =>
      rw [validate_one_error cfg ctd g e hv]
    | ok item =>
      rcases List.mem_cons.mp hf with rfl | hf2
      · rw [hv] at hbad
        exact Except.noConfusion hbad
      · show (if pathExists st item.src = true ∧
            item.src ∈ conn.statFailsValidate
          then Except.error (PyErr.ioError 1)
          else validate_go cfg conn st ctd rest (addUnique acc item)) =
          Except.error PyErr.valueError
        rw [if_neg]
        · exact ih _ hf2
        · rw [hstat]
          simp

/-- C6 (amended): `_validate_files` maps each requested path as
follows — a path under `source_path` (whether absolute or relative,
since the check `source_path in path.parents` never looks at
absoluteness) keeps its remote path and goes to `local_path` joined
with its position relative to `source_path`; a relative path not under
`source_path` is resolved against `source_path` on the remote side and
against `local_path` on the local side; with no `source_path`, an
absolute path maps flat to `local_path/<name>`; an absolute path not
under a configured `source_path`, or a relative path with no
`source_path`, raises `ValueError` — and a run handed any such
ill-shaped path stops with that `ValueError` before recording a single
event, in particular before any transfer. -/
theorem c6_path_mapping (cfg : Config) (ctd : Option FPath) (f : FPath) :
    (∀ sp, cfg.source_path = some sp → sp.inParents f = true →
      validate_one cfg ctd f = .ok ⟨f, cfg.local_path.join (f.relative_to sp),
        ctd.map (fun t => t.join (f.relative_to sp))⟩) ∧
    (∀ sp, cfg.source_path = some sp → sp.inParents f = false →
      f.absolute = false →
      validate_one cfg ctd f = .ok ⟨sp.join f, cfg.local_path.join f,
        ctd.map (fun t => t.join f)⟩) ∧
    (cfg.source_path = none → f.absolute = true →
      validate_one cfg ctd f = .ok ⟨f, cfg.local_path.join ⟨false, [f.name]⟩,
        ctd.map (fun t => t.join ⟨false, [f.name]⟩)⟩) ∧
    (∀ sp, cfg.source_path = some sp → sp.inParents f = false →
      f.absolute = true → validate_one cfg ctd f = .error .valueError) ∧
    (cfg.source_path = none → f.absolute = false →
      validate_one cfg ctd f = .error .valueError) ∧
    (∀ conn strat fs remote localFS localDirs store stF oe, f ∈ fs →
      validate_one cfg (cfg.temp_path.map generate_temp_path) f =
        .error .valueError →
      conn.statFailsValidate = [] →
      fsLookup localFS cfg.local_path = none →
      conn.checkFails = false → conn.sourceDirFails = false →
      check_strategy cfg strat = none →
      runModel cfg conn strat (some fs) remote localFS localDirs store =
        (stF, oe) →
      oe = some .valueError ∧ stF.events = []) := by
  refine ⟨?_, ?_, ?_, ?_, ?_, ?_⟩
  · intro sp hsp hpar
    unfold validate_one
    rw [hsp]
    simp [hpar]
  · intro sp hsp hpar habs
    unfold validate_one
    rw [hsp]
    simp [hpar, habs]
  · intro hsp habs
    unfold validate_one
    rw [hsp]
    simp [habs]
  · intro sp hsp hpar habs
    unfold validate_one
    rw [hsp]
    simp [hpar, habs]
  · intro hsp habs
    unfold validate_one
    rw [hsp]
    simp [habs]
  · intro conn strat fs remote localFS localDirs store stF oe hf hbad hstat
      hlp hck hsd hs hrun
    have hfs2 : fs.isEmpty = false := by
      cases fs with
      | nil => cases hf
      | cons g r => rfl
    have hval : validate_files cfg conn
        { initSt remote localFS localDirs store with
            localDirs := addUnique localDirs cfg.local_path }
        (cfg.temp_path.map generate_temp_path) fs = .error .valueError :=
      validate_bad cfg conn _ _ fs [] f hf hbad hstat
    unfold runModel runChecked runResolved at hrun
    rw [hs] at hrun
    simp only [initSt] at hval
    simp [initSt, hlp, hck, hsd, hfs2, hval] at hrun
    refine ⟨hrun.2.symm, ?_⟩
    rw [← hrun.1]

/-- Counterexample for C6 as stated: with a relative `source_path`
(`a`), the relative path `a/b` is NOT resolved against `source_path` —
`source_path in path.parents` matches first, so the remote path stays
`a/b` and the local path becomes `local/b`, not the
`a/a/b` → `local/a/b` the claim's relative-path clause prescribes. -/
theorem c6_path_mapping_cex :
    ((⟨false, ["a", "b"]⟩ : FPath).absolute = false) ∧
    validate_one { local_path := fixLocal, source_path := some ⟨false, ["a"]⟩ }
        none ⟨false, ["a", "b"]⟩ =
      Except.ok ⟨⟨false, ["a", "b"]⟩, ⟨true, ["local", "b"]⟩, none⟩ ∧
    (⟨⟨false, ["a", "b"]⟩, ⟨true, ["local", "b"]⟩, none⟩ : DItem) ≠
      ⟨FPath.join ⟨false, ["a"]⟩ ⟨false, ["a", "b"]⟩,
        FPath.join fixLocal ⟨false, ["a", "b"]⟩, none⟩ :=
  ⟨rfl, rfl, by decide⟩

/-- Witness for C6 (amended): the under-source mapping at a concrete
absolute path, and a concrete ill-shaped run (absolute path outside
`source_path`) stopping with `ValueError` before any event. -/
theorem c6_path_mapping_witness :
    (validate_one fixCfgSrc none fixRA =
      .ok ⟨fixRA, fixCfgSrc.local_path.join (fixRA.relative_to fixRemote),
        none⟩) ∧
    (validate_one fixCfgSrc none ⟨true, ["elsewhere", "x"]⟩ =
      .error .valueError) ∧
    ((runModel fixCfgSrc {} fixStratSnap (some [⟨true, ["elsewhere", "x"]⟩])
        [] [] [] none).2 = some .valueError ∧
      (runModel fixCfgSrc {} fixStratSnap (some [⟨true, ["elsewhere", "x"]⟩])
        [] [] [] none).1.events = []) :=
  ⟨(c6_path_mapping fixCfgSrc none fixRA).1 fixRemote rfl (by decide),
   (c6_path_mapping fixCfgSrc none ⟨true, ["elsewhere", "x"]⟩).2.2.2.1
     fixRemote rfl (by decide) (by decide),
   (c6_path_mapping fixCfgSrc none ⟨true, ["elsewhere", "x"]⟩).2.2.2.2.2
     {} fixStratSnap [⟨true, ["elsewhere", "x"]⟩] [] [] [] none
     (runModel fixCfgSrc {} fixStratSnap (some [⟨true, ["elsewhere", "x"]⟩])
       [] [] [] none).1
     (runModel fixCfgSrc {} fixStratSnap (some [⟨true, ["elsewhere", "x"]⟩])
       [] [] [] none).2
     (by decide) rfl rfl rfl rfl rfl rfl rfl⟩

theorem walkFiles_length_le (remote : List (FPath × Nat)) (root : FPath)
    (filt : Option (FPath → Bool)) (hwmFilter : Option (List FPath)) (n : Nat) :
    (walkFiles remote root filt hwmFilter (some n)).length ≤ n := by
  unfold walkFiles
  exact List.length_take_le n _

theorem validate_go_length (cfg : Config) (conn : Conn) (st : RunSt)
    (ctd : Option FPath) (fs : List FPath) :
    ∀ acc items, validate_go cfg conn st ctd fs acc = .ok items →
      items.length ≤ acc.length + fs.length := by
  induction fs with
  | nil =>
    intro acc items h
    unfold validate_go at h
    injection h with h1
    subst h1
    simp
  | cons g rest ih =>
    intro acc items h
    unfold validate_go at h
    split at h
    · exact Except.noConfusion h
    next item hv =>
      split at h
      · exact Except.noConfusion h
      · have hrec := ih _ _ h
        have hlen := length_addUnique_le acc item
        simp only [List.length_cons]
        omega

theorem runLoop_adds (cfg : Config) (conn : Conn) (items : List DItem)
    (ctd : Option FPath) (st1 : RunSt) (stF : RunSt)
    (hev : bucketAdds st1.events = [])
    (h : runLoop cfg conn items ctd st1 = (stF, none)) :
    (bucketAdds stF.events).length = items.length := by
  unfold runLoop at h
  have hev3 : bucketAdds (hwmLoad cfg
      (if cfg.mode = .delete_all then rmtreeLocalOp st1 cfg.local_path
       else st1)).events = [] := by
    unfold hwmLoad rmtreeLocalOp
    simp only [bucketAdds] at hev ⊢
    split <;> split <;>
      simp [List.filter_append, hev, Event.isBucketAdd]
  split at h
  next st4 e hd =>
    injection h with h1 h2
    exact Option.noConfusion h2
  next st4 hd =>
    obtain ⟨δ, he4, hmap, -, -, -⟩ := download_files_ok cfg conn items _ st4 hd
    have hlen : (bucketAdds δ).length = items.length := by
      have hmap2 := congrArg List.length hmap
      simpa using hmap2
    cases ctd with
    | some td =>
      injection h with h1 h2
      subst h1
      show (bucketAdds (st4.events ++ [Event.rmtreeTemp])).length = items.length
      rw [he4, bucketAdds_append, bucketAdds_append, hev3]
      simpa [bucketAdds, Event.isBucketAdd] using hlen
    | none =>
      injection h with h1 h2
      subst h1
      rw [he4, bucketAdds_append, hev3]
      simpa using hlen

theorem runChecked_none_cases (cfg : Config) (conn : Conn) (st1 : RunSt)
    (stF : RunSt) (h : runChecked cfg conn none st1 = (stF, none)) :
    ∃ fs, view_files_model cfg conn st1 = .ok fs ∧
      (stF = st1 ∨ runResolved cfg conn fs st1 = (stF, none)) := by
  unfold runChecked at h
  split at h
  · injection h with h1 h2
    exact Option.noConfusion h2
  · split at h
    · injection h with h1 h2
      exact Option.noConfusion h2
    · split at h
      next e hve =>
        injection h with h1 h2
        exact Option.noConfusion h2
      next fs hve =>
        have hve2 : view_files_model cfg conn st1 = .ok fs := hve
        split at h
        next hempty =>
          injection h with h1 h2
          exact ⟨fs, hve2, .inl h1.symm⟩
        next hempty =>
          exact ⟨fs, hve2, .inr h⟩

/-- C10: a `FileDownloader` built without overriding the `limit` field
carries the default `FileLimit` whose count limit is 100, so `run()`
without an explicit file list and `view_files()` pass that limit into
the directory walk: enumeration yields at most 100 files and a
completed list-less run processes (and records) at most 100
candidates, even though the caller configured no limit. -/
theorem c10_default_limit :
    (∀ lp, ({ local_path := lp } : Config).limit = some fileLimitDefaultCount) ∧
    fileLimitDefaultCount = 100 ∧
    (∀ cfg conn st fs, cfg.limit = some fileLimitDefaultCount →
      view_files_model cfg conn st = .ok fs → fs.length ≤ 100) ∧
    (∀ cfg conn strat remote localFS localDirs store stF,
      cfg.limit = some fileLimitDefaultCount →
      runModel cfg conn strat none remote localFS localDirs store =
        (stF, none) →
      (bucketAdds stF.events).length ≤ 100) := by
  have hview : ∀ cfg conn st fs, (cfg : Config).limit = some fileLimitDefaultCount →
      view_files_model cfg conn st = .ok fs → fs.length ≤ 100 := by
    intro cfg conn st fs hlim hv
    unfold view_files_model at hv
    split at hv
    · exact Except.noConfusion hv
    · split at hv
      · exact Except.noConfusion hv
      next sp =>
        injection hv with hv1
        subst hv1
        rw [hlim]
        exact walkFiles_length_le _ _ _ _ _
  refine ⟨fun lp => rfl, rfl, hview, ?_⟩
  intro cfg conn strat remote localFS localDirs store stF hlim hrun
  have h1 := runModel_to_checked cfg conn strat none remote localFS localDirs
    store stF hrun
  obtain ⟨fs, hv, hcase⟩ := runChecked_none_cases cfg conn _ stF h1
  have hfs := hview cfg conn _ fs hlim hv
  rcases hcase with rfl | hres
  · simp [bucketAdds, initSt]
  · obtain ⟨items, hval, hloop⟩ := runResolved_to_loop cfg conn fs _ stF hres
    have hitems := validate_go_length cfg conn _ _ fs [] items hval
    have hadds := runLoop_adds cfg conn items _ _ stF (by simp [bucketAdds, initSt]) hloop
    simp only [List.length_nil, Nat.zero_add] at hitems
    omega

set_option maxRecDepth 40000 in
/-- Witness for C10: a 101-file remote directory enumerated through the
default configuration yields only the first 100 candidates. -/
theorem c10_default_limit_witness :
    fixCfgSrc.limit = some fileLimitDefaultCount ∧
    view_files_model fixCfgSrc {}
        (initSt ((List.range 101).map
          (fun i => (⟨true, ["remote", toString i]⟩, i))) [] [] none) =
      .ok (((List.range 101).map
          (fun i => (⟨true, ["remote", toString i]⟩ : FPath))).take 100) ∧
    (((List.range 101).map
        (fun i => (⟨true, ["remote", toString i]⟩ : FPath))).take 100).length
      ≤ 100 :=
  ⟨rfl, by decide, c10_default_limit.2.2.1 fixCfgSrc {}
    (initSt ((List.range 101).map
      (fun i => (⟨true, ["remote", toString i]⟩, i))) [] [] none)
    (((List.range 101).map
      (fun i => (⟨true, ["remote", toString i]⟩ : FPath))).take 100) rfl
    (by decide)⟩

end Onetl
